import Mathlib

/-!
# Library management system: records, catalogue and their operations

A shallow embedding of `src/library_management_system.cpp` (classes `Book` and
`Library`) together with theorems about it.

Modelling conventions.

* `std::vector<Book>` is a `List Book`; a `Book*` or iterator into the vector is
  the position of the element, carried together with the element it points at.
* `time(0)` is an explicit argument `now` of every operation that reads the clock.
* `std::string` is `String`, its characters standing for the bytes of the C++
  string; text written to `cout` is returned as the `out` component of an
  operation's outcome.
* `std::string::find` and `ctime` belong to the C and C++ libraries, not to the
  sources: the first is modelled (`findFrom`), the second is an argument of the
  operations that print a due date.
* Values are carried in `Int`.  Arithmetic that the code performs in `int` keeps
  its 32-bit two's-complement wrap (`wrapInt32`): the product
  `days * 24 * 60 * 60` of `Book::borrowBook`, the increment `nextBookID++` and
  the difference `nextBookID - 1` of `Library::addBook`, and the narrowing of the
  quotient of `Book::getDaysUntilDue` to `int`.  C++ leaves signed overflow
  undefined; the wrap is what the code generated by the usual compilers
  computes.  Sums and differences of `time_t` values are exact: the clock leaves
  the 64-bit range of `time_t` only at dates billions of years away.
* Integer division of C++ truncates toward zero: `Int.tdiv`.
-/

namespace LibrarySystem

/-! ## Machine arithmetic -/

/-- Reduce an integer to the 32-bit two's-complement range `[-2^31, 2^31)`. -/
def wrapInt32 (x : Int) : Int :=
  (x + 2147483648) % 4294967296 - 2147483648

/-- Product of two `int` values, evaluated in `int`. -/
def intMul (a b : Int) : Int :=
  wrapInt32 (a * b)

/-! ## Book -/

/-- The class `Book`: one record of the catalogue. -/
structure Book where
  bookID : Int
  title : String
  author : String
  isbn : String
  genre : String
  isAvailable : Bool
  borrowerName : String
  borrowDate : Int
  dueDate : Int
  deriving DecidableEq, Repr

namespace Book

/-- Constructor `Book(id, t, a, isbn_val, g)`. -/
def new (id : Int) (t a isbn_val g : String) : Book :=
  { bookID := id, title := t, author := a, isbn := isbn_val, genre := g,
    isAvailable := true, borrowerName := "", borrowDate := 0, dueDate := 0 }

/-- Default value of the parameter `days` of `Book::borrowBook`. -/
def defaultDays : Int := 14

/-- The method `void borrowBook(string name, int days = 14)`; `now` is the value
returned by `time(0)`.  The product is evaluated left to right in `int`, the sum
in `time_t`. -/
def borrowBook (b : Book) (name : String) (now : Int) (days : Int) : Book :=
  { b with
    isAvailable := false
    borrowerName := name
    borrowDate := now
    dueDate := now + intMul (intMul (intMul days 24) 60) 60 }

/-- The method `void returnBook()`. -/
def returnBook (b : Book) : Book :=
  { b with isAvailable := true, borrowerName := "", borrowDate := 0, dueDate := 0 }

/-- The method `bool isOverdue() const`; `now` is the value of `time(0)`. -/
def isOverdue (b : Book) (now : Int) : Bool :=
  if b.isAvailable then false else decide (now > b.dueDate)

/-- The method `int getDaysUntilDue() const`; `now` is the value of `time(0)`.
The quotient is taken in `time_t`, truncates toward zero and is then stored in
the `int` variable `daysLeft`. -/
def getDaysUntilDue (b : Book) (now : Int) : Int :=
  if b.isAvailable then -1
  else
    let daysLeft := wrapInt32 (Int.tdiv (b.dueDate - now) (24 * 60 * 60))
    max 0 daysLeft

end Book

/-! ## Library -/

/-- The class `Library`: the records in insertion order and the id counter. -/
structure Library where
  books : List Book
  nextBookID : Int
  deriving DecidableEq, Repr

/-- What a `bool`-returning operation of `Library` leaves behind: the new state,
the returned flag and the text printed. -/
structure Outcome where
  lib : Library
  ret : Bool
  out : String
  deriving DecidableEq, Repr

namespace Library

/-- Constructor `Library() : nextBookID(1001) {}`. -/
def new : Library :=
  { books := [], nextBookID := 1001 }

/-- Linear scan for the first record whose id is `bookID`, as done by the loop of
`findBookByID` and by the `find_if` of `removeBook`: the position found and the
record at that position. -/
def scan : List Book → Int → Option (Nat × Book)
  | [], _ => none
  | b :: bs, bookID =>
    if b.bookID = bookID then some (0, b)
    else
      match scan bs bookID with
      | none => none
      | some (i, x) => some (i + 1, x)

/-- The method `Book* findBookByID(int bookID)`; `none` is `nullptr`. -/
def findBookByID (L : Library) (bookID : Int) : Option (Nat × Book) :=
  scan L.books bookID

/-- The method `void addBook(title, author, isbn, genre)`: the new state and the
text printed.  The increment `nextBookID++` and the difference `nextBookID - 1`
are evaluated in `int`. -/
def addBook (L : Library) (title author isbn genre : String) : Library × String :=
  let L1 : Library :=
    { books := L.books ++ [Book.new L.nextBookID title author isbn genre]
      nextBookID := wrapInt32 (L.nextBookID + 1) }
  (L1, "\n✓ Book added successfully! Book ID: " ++
    toString (wrapInt32 (L1.nextBookID - 1)) ++ "\n")

/-- The method `bool removeBook(int bookID)`. -/
def removeBook (L : Library) (bookID : Int) : Outcome :=
  match scan L.books bookID with
  | some (it, b) =>
    if !b.isAvailable then
      ⟨L, false, "\n✗ Cannot remove book. It\x27s currently borrowed!\n"⟩
    else
      ⟨{ L with books := L.books.eraseIdx it }, true, "\n✓ Book removed successfully!\n"⟩
  | none => ⟨L, false, "\n✗ Book not found!\n"⟩

/-- The method `bool borrowBook(int bookID, string borrowerName)`; `now` is the
value of `time(0)` read by `Book::borrowBook`. -/
def borrowBook (L : Library) (bookID : Int) (borrowerName : String) (now : Int) : Outcome :=
  match L.findBookByID bookID with
  | none => ⟨L, false, "\n✗ Book not found!\n"⟩
  | some (p, book) =>
    if !book.isAvailable then
      ⟨L, false, "\n✗ Book is currently borrowed by: " ++ book.borrowerName ++ "\n"⟩
    else
      ⟨{ L with books := L.books.set p (book.borrowBook borrowerName now Book.defaultDays) },
        true,
        "\n✓ Book borrowed successfully!\n" ++ "Return within 14 days to avoid late fees.\n"⟩

/-- The method `bool returnBook(int bookID)`; `now` is the value of `time(0)` read
by `Book::isOverdue`. -/
def returnBook (L : Library) (bookID : Int) (now : Int) : Outcome :=
  match L.findBookByID bookID with
  | none => ⟨L, false, "\n✗ Book not found!\n"⟩
  | some (p, book) =>
    if book.isAvailable then
      ⟨L, false, "\n✗ This book is not borrowed!\n"⟩
    else
      let warning :=
        if book.isOverdue now then
          "\n⚠ Warning: This book is overdue!\n" ++ "Late fees may apply!\n"
        else ""
      ⟨{ L with books := L.books.set p book.returnBook }, true,
        warning ++ "\n✓ Book returned successfully!\n"⟩

end Library

/-! ## Runs of the catalogue -/

/-- One call of a state-changing operation of `Library`, with its arguments and,
for the operations that read it, the clock value of the call. -/
inductive Op where
  | addBook (title author isbn genre : String)
  | removeBook (bookID : Int)
  | borrowBook (bookID : Int) (borrowerName : String) (now : Int)
  | returnBook (bookID : Int) (now : Int)
  deriving DecidableEq, Repr

namespace Library

/-- State after one call. -/
def step (L : Library) : Op → Library
  | .addBook title author isbn genre => (L.addBook title author isbn genre).1
  | .removeBook bookID => (L.removeBook bookID).lib
  | .borrowBook bookID borrowerName now => (L.borrowBook bookID borrowerName now).lib
  | .returnBook bookID now => (L.returnBook bookID now).lib

/-- State after a sequence of calls, first call first. -/
def run (L : Library) : List Op → Library
  | [] => L
  | op :: ops => run (L.step op) ops

/-- Ids of the records of a list, in order. -/
def ids (bs : List Book) : List Int :=
  bs.map Book.bookID

/-- The ids given out by the `addBook` calls of a run started in `L`, in call
order: for each such call, the ids of the records it appended. -/
def assignedIDs (L : Library) : List Op → List Int
  | [] => []
  | .addBook title author isbn genre :: ops =>
    ids ((L.step (.addBook title author isbn genre)).books.drop L.books.length)
      ++ assignedIDs (L.step (.addBook title author isbn genre)) ops
  | op :: ops => assignedIDs (L.step op) ops

/-- Number of `addBook` calls in a sequence of calls. -/
def countAdds : List Op → Nat
  | [] => 0
  | .addBook _ _ _ _ :: ops => countAdds ops + 1
  | _ :: ops => countAdds ops

/-- A state is reachable when some sequence of calls leads to it from a freshly
constructed `Library`. -/
def Reachable (L : Library) : Prop :=
  ∃ ops : List Op, Library.new.run ops = L

/-- The ids of the records are pairwise distinct. -/
def UniqueIDs (L : Library) : Prop :=
  (ids L.books).Nodup

instance (L : Library) : Decidable L.UniqueIDs :=
  inferInstanceAs (Decidable (ids L.books).Nodup)

end Library

/-! ## Searches, display and counts -/

/-- Modelled from the spec: `std::string::find` of the C++ standard library, which
`searchByTitle`, `searchByAuthor` and `searchByGenre` call and which is not part
of the sources.  Case-sensitive, unanchored search for `needle` in `hay`: the
position of the first occurrence, `none` standing for `string::npos`; an empty
`needle` is found at position 0. -/
def findFrom (needle : List Char) : List Char → Option Nat
  | [] => if needle.isPrefixOf [] then some 0 else none
  | c :: hay =>
    if needle.isPrefixOf (c :: hay) then some 0
    else
      match findFrom needle hay with
      | none => none
      | some i => some (i + 1)

/-- The call `hay.find(needle)` on strings. -/
def stringFind (hay needle : String) : Option Nat :=
  findFrom needle.toList hay.toList

namespace Book

/-- The method `void display() const`, as the text it prints.  `ctime` is the
C library function of that name, which renders a timestamp as a line of text. -/
def display (ctime : Int → String) (b : Book) : String :=
  "\n========================================\n" ++
  "Book ID: " ++ toString b.bookID ++ "\n" ++
  "Title: " ++ b.title ++ "\n" ++
  "Author: " ++ b.author ++ "\n" ++
  "ISBN: " ++ b.isbn ++ "\n" ++
  "Genre: " ++ b.genre ++ "\n" ++
  "Status: " ++ (if b.isAvailable then "Available" else "Borrowed") ++ "\n" ++
  (if !b.isAvailable then
      "Borrowed by: " ++ b.borrowerName ++ "\n" ++ "Due Date: " ++ ctime b.dueDate
    else "") ++
  "========================================\n"

/-- The fields of a record that are set by the constructor only: id, title,
author, isbn and genre. -/
def fixedFields (b : Book) : Int × String × String × String × String :=
  (b.bookID, b.title, b.author, b.isbn, b.genre)

end Book

/-- What a search leaves behind: the state, the vector `results` (the records
pointed at, in the order they were pushed) and the text printed. -/
structure SearchOutcome where
  lib : Library
  results : List Book
  out : String
  deriving DecidableEq, Repr

namespace Library

/-- The loop `for (auto& book : books) if (...) results.push_back(&book);` of the
three searches, started with the vector `results` built so far. -/
def collect (keep : Book → Bool) : List Book → List Book → List Book
  | [], results => results
  | book :: rest, results =>
    collect keep rest (if keep book then results ++ [book] else results)

/-- The text printed for a non-empty vector `results`. -/
def showResults (ctime : Int → String) (results : List Book) : String :=
  "\nFound " ++ toString results.length ++ " book(s):\n" ++
    String.join (results.map (Book.display ctime))

/-- The method `void searchByTitle(string title)`. -/
def searchByTitle (ctime : Int → String) (L : Library) (title : String) : SearchOutcome :=
  let results := collect (fun book => (stringFind book.title title).isSome) L.books []
  if results.isEmpty then ⟨L, results, "\n✗ No books found with that title!\n"⟩
  else ⟨L, results, showResults ctime results⟩

/-- The method `void searchByAuthor(string author)`. -/
def searchByAuthor (ctime : Int → String) (L : Library) (author : String) : SearchOutcome :=
  let results := collect (fun book => (stringFind book.author author).isSome) L.books []
  if results.isEmpty then ⟨L, results, "\n✗ No books found by that author!\n"⟩
  else ⟨L, results, showResults ctime results⟩

/-- The method `void searchByGenre(string genre)`. -/
def searchByGenre (ctime : Int → String) (L : Library) (genre : String) : SearchOutcome :=
  let results := collect (fun book => (stringFind book.genre genre).isSome) L.books []
  if results.isEmpty then ⟨L, results, "\n✗ No books found in that genre!\n"⟩
  else ⟨L, results, showResults ctime results⟩

/-- The method `int getTotalBooks() const`. -/
def getTotalBooks (L : Library) : Int :=
  (L.books.length : Int)

end Library

/-! ## Invariants of reachable states -/

/-- Seconds of the default loan period, `14 * 24 * 60 * 60`. -/
def defaultLoanSeconds : Int := 1209600

/-- Shape of a record in a reachable state: an available record carries no
borrower and no timestamps; a borrowed one was lent by `Library::borrowBook`, so
its due date lies the default loan period after its borrow date. -/
def RecordOK (b : Book) : Prop :=
  (b.isAvailable = true → b.borrowerName = "" ∧ b.borrowDate = 0 ∧ b.dueDate = 0) ∧
  (b.isAvailable = false → b.dueDate = b.borrowDate + defaultLoanSeconds)

instance (b : Book) : Decidable (RecordOK b) := by
  unfold RecordOK
  infer_instance

namespace Library

/-- Invariant of the catalogue while the counter has not wrapped: every record is
well shaped, the ids increase strictly along the vector, lie between 1001 and the
counter, and no more records exist than ids were given out. -/
def Inv (L : Library) : Prop :=
  (∀ b ∈ L.books, RecordOK b) ∧
  (ids L.books).Pairwise (· < ·) ∧
  (∀ b ∈ L.books, 1001 ≤ b.bookID ∧ b.bookID < L.nextBookID) ∧
  (L.books.length : Int) ≤ L.nextBookID - 1001

instance (L : Library) : Decidable L.Inv := by
  unfold Inv
  infer_instance

end Library

/-! ## Sample states -/

/-- The calls with which `main` fills the catalogue at start-up. -/
def seedOps : List Op :=
  [ .addBook "The Great Gatsby" "F. Scott Fitzgerald" "978-0743273565" "Fiction",
    .addBook "To Kill a Mockingbird" "Harper Lee" "978-0061120084" "Fiction",
    .addBook "1984" "George Orwell" "978-0451524935" "Dystopian",
    .addBook "Pride and Prejudice" "Jane Austen" "978-0141439518" "Romance",
    .addBook "The Hobbit" "J.R.R. Tolkien" "978-0547928227" "Fantasy",
    .addBook "C++ Primer" "Stanley Lippman" "978-0321714114" "Technical",
    .addBook "Data Structures" "Mark Allen Weiss" "978-0132576277" "Technical" ]

/-- The catalogue of `main` after start-up: seven available records, ids 1001 to
1007. -/
def seedLibrary : Library :=
  Library.new.run seedOps

/-- The start-up calls followed by lending record 1003 to Alice at clock value
1700000000. -/
def lentOps : List Op :=
  seedOps ++ [.borrowBook 1003 "Alice" 1700000000]

/-- The start-up catalogue after record 1003 was lent to Alice. -/
def lentLibrary : Library :=
  Library.new.run lentOps

/-- A record lent at clock value 0 for a loan period of 24856 days, the first
period whose length in seconds, 2147558400, no longer fits an `int`. -/
def longLoanBook : Book :=
  (Book.new 1003 "1984" "George Orwell" "978-0451524935" "Dystopian").borrowBook "Alice" 0 24856

/-- The record 1003 of `lentLibrary`. -/
def lentBook : Book :=
  { bookID := 1003, title := "1984", author := "George Orwell", isbn := "978-0451524935",
    genre := "Dystopian", isAvailable := false, borrowerName := "Alice",
    borrowDate := 1700000000, dueDate := 1701209600 }

/-! ## The scenario of the specification -/

/-- A fresh catalogue after `addBook("1984", "George Orwell", "978-0451524935",
"Dystopian")`. -/
def afterAdd : Library :=
  (Library.new.addBook "1984" "George Orwell" "978-0451524935" "Dystopian").1

/-- Then `borrowBook(1001, "Alice")` at clock value `t1`. -/
def afterBorrow (t1 : Int) : Outcome :=
  afterAdd.borrowBook 1001 "Alice" t1

/-- Then `borrowBook(1001, "Bob")` at clock value `t2`. -/
def afterSecondBorrow (t1 t2 : Int) : Outcome :=
  (afterBorrow t1).lib.borrowBook 1001 "Bob" t2

/-- Then `returnBook(1001)` at clock value `t3`. -/
def afterReturn (t1 t2 t3 : Int) : Outcome :=
  (afterSecondBorrow t1 t2).lib.returnBook 1001 t3

/-- Then `removeBook(1001)`. -/
def afterRemove (t1 t2 t3 : Int) : Outcome :=
  (afterReturn t1 t2 t3).lib.removeBook 1001

/-- A record that is already lent (to Alice, at clock value 1700000000) and on
which `borrowBook("Bob", 24856)` is called at the same clock value. -/
def relentBook : Book :=
  lentBook.borrowBook "Bob" 1700000000 24856

/-! ## Long runs: the counter at the end of the `int` range -/

namespace Library

/-- A state is reachable within `maxAdds` additions when some sequence of calls
with at most that many `addBook` calls leads to it from a freshly constructed
`Library`. -/
def ReachableWithin (maxAdds : Nat) (L : Library) : Prop :=
  ∃ ops : List Op, countAdds ops ≤ maxAdds ∧ Library.new.run ops = L

/-- Bookkeeping of the ids given out by the first `n` additions to a fresh
`Library`: the counter stands at `1001 + n` reduced to the `int` range, every id
present is `1001 + i` reduced to the `int` range for some `i < n`, and along the
vector these `i` increase. -/
def Issued (L : Library) (n : Nat) : Prop :=
  L.nextBookID = wrapInt32 (1001 + (n : Int)) ∧
  (∀ a ∈ ids L.books, ∃ i : Nat, i < n ∧ a = wrapInt32 (1001 + (i : Int))) ∧
  (ids L.books).Pairwise (fun a b => ∃ i j : Nat, i < j ∧ j < n ∧
    a = wrapInt32 (1001 + (i : Int)) ∧ b = wrapInt32 (1001 + (j : Int)))

end Library

/-- `m` rounds of adding a record and removing it again, the counter standing at
`c` before the first round: the catalogue stays as small as it was while the
counter advances by `m`. -/
def churn : Int → Nat → List Op
  | _, 0 => []
  | c, m + 1 => .addBook "Scratch" "Nobody" "000" "None" :: .removeBook c ::
      churn (wrapInt32 (c + 1)) m

/-- 2147482648 additions to a fresh `Library`: 2147482647 rounds of adding and
removing, then one more `addBook`. -/
def overflowOps : List Op :=
  churn 1001 2147482647 ++ [.addBook "1984" "George Orwell" "978-0451524935" "Dystopian"]

/-- An empty catalogue whose counter stands at 2147483647, the largest `int`; it
is the state after 2147482646 rounds of adding and removing. -/
def fullLibrary : Library :=
  { books := [], nextBookID := 2147483647 }

/-- 2147482647 additions to a fresh `Library`: 2147482646 rounds of adding and
removing, then one more `addBook`. -/
def wrappedOps : List Op :=
  churn 1001 2147482646 ++ [.addBook "1984" "George Orwell" "978-0451524935" "Dystopian"]

/-- The state after `wrappedOps`: one record, with the largest `int` as id, and
the counter wrapped to the smallest `int`. -/
def wrappedLibrary : Library :=
  { books := [Book.new 2147483647 "1984" "George Orwell" "978-0451524935" "Dystopian"],
    nextBookID := -2147483648 }

/-- The first record of `dupLibrary`: id 1001, lent to Alice at clock value 0. -/
def dupFirst : Book :=
  { bookID := 1001, title := "1984", author := "George Orwell", isbn := "978-0451524935",
    genre := "Dystopian", isAvailable := false, borrowerName := "Alice",
    borrowDate := 0, dueDate := 1209600 }

/-- The second record of `dupLibrary`: id 1001 again, available. -/
def dupSecond : Book :=
  Book.new 1001 "Dune" "Frank Herbert" "978-0441013593" "Science Fiction"

/-- 4294967297 additions to a fresh `Library`: a record is added (id 1001) and
lent, then 4294967295 rounds of adding and removing take the counter once around
the `int` range, and the next `addBook` gives out id 1001 a second time. -/
def dupOps : List Op :=
  .addBook "1984" "George Orwell" "978-0451524935" "Dystopian" ::
    .borrowBook 1001 "Alice" 0 ::
      (churn 1002 4294967295 ++
        [.addBook "Dune" "Frank Herbert" "978-0441013593" "Science Fiction"])

/-- The state after `dupOps`: two records with id 1001, the first lent, the second
available. -/
def dupLibrary : Library :=
  { books := [dupFirst, dupSecond], nextBookID := 1002 }

/-- A lent record whose due date lies 4294967301 days after clock value 0. -/
def farBook : Book :=
  { lentBook with borrowDate := 371085174806400 - 1209600, dueDate := 371085174806400 }

/-- A lent record whose due date lies 2147483649 days before clock value 0. -/
def lateBook : Book :=
  { lentBook with borrowDate := -185542587273600 - 1209600, dueDate := -185542587273600 }

/-! ## Facts about the scan -/

namespace Library

theorem scan_eq_none {bs : List Book} {bookID : Int} :
    scan bs bookID = none ↔ ∀ x ∈ bs, x.bookID ≠ bookID := by
  induction bs with
  | nil => simp [scan]
  | cons b bs ih =>
    by_cases hb : b.bookID = bookID
    · simp [scan, hb]
    · cases hs : scan bs bookID with
      | none => simpa [scan, hb, hs] using ih.mp hs
      | some r =>
        have : ¬ ∀ x ∈ bs, x.bookID ≠ bookID := fun h => by
          rw [ih.mpr h] at hs; cases hs
        simp only [scan, hb, hs, if_false]
        constructor
        · intro h; cases h
        · intro h; exact absurd (fun x hx => h x (List.mem_cons_of_mem _ hx)) this

theorem scan_eq_some {bs : List Book} {bookID : Int} {i : Nat} {b : Book}
    (h : scan bs bookID = some (i, b)) :
    ∃ pre post, bs = pre ++ b :: post ∧ i = pre.length ∧ b.bookID = bookID ∧
      ∀ x ∈ pre, x.bookID ≠ bookID := by
  induction bs generalizing i with
  | nil => simp [scan] at h
  | cons c bs ih =>
    by_cases hc : c.bookID = bookID
    · simp only [scan, hc, if_true, Option.some.injEq, Prod.mk.injEq] at h
      obtain ⟨rfl, rfl⟩ := h
      exact ⟨[], bs, rfl, rfl, hc, by simp⟩
    · cases hs : scan bs bookID with
      | none => simp [scan, hc, hs] at h
      | some r =>
        obtain ⟨j, x⟩ := r
        simp only [scan, hc, hs, if_false, Option.some.injEq, Prod.mk.injEq] at h
        obtain ⟨rfl, rfl⟩ := h
        obtain ⟨pre, post, rfl, rfl, hx, hpre⟩ := ih hs
        refine ⟨c :: pre, post, rfl, rfl, hx, ?_⟩
        intro y hy
        rcases List.mem_cons.mp hy with rfl | hy
        · exact hc
        · exact hpre y hy

theorem scan_append_of_not_mem {pre : List Book} {b : Book} {post : List Book} {bookID : Int}
    (hb : b.bookID = bookID) (hpre : ∀ x ∈ pre, x.bookID ≠ bookID) :
    scan (pre ++ b :: post) bookID = some (pre.length, b) := by
  induction pre with
  | nil => simp [scan, hb]
  | cons c pre ih =>
    have hc : c.bookID ≠ bookID := hpre c (List.mem_cons_self _ _)
    have := ih (fun x hx => hpre x (List.mem_cons_of_mem _ hx))
    simp [scan, hc, this]

theorem set_length_append (pre : List Book) (b c : Book) (post : List Book) :
    (pre ++ b :: post).set pre.length c = pre ++ c :: post := by
  induction pre with
  | nil => rfl
  | cons a pre ih => simp [ih]

theorem eraseIdx_length_append (pre : List Book) (b : Book) (post : List Book) :
    (pre ++ b :: post).eraseIdx pre.length = pre ++ post := by
  induction pre with
  | nil => rfl
  | cons a pre ih => simp [ih]

/-! ## Case analysis of the operations -/

theorem removeBook_cases (L : Library) (bookID : Int) :
    ((∀ x ∈ L.books, x.bookID ≠ bookID) ∧
        (L.removeBook bookID).lib = L ∧ (L.removeBook bookID).ret = false) ∨
    (∃ pre b post, L.books = pre ++ b :: post ∧ b.bookID = bookID ∧
        (∀ x ∈ pre, x.bookID ≠ bookID) ∧ b.isAvailable = false ∧
        (L.removeBook bookID).lib = L ∧ (L.removeBook bookID).ret = false) ∨
    (∃ pre b post, L.books = pre ++ b :: post ∧ b.bookID = bookID ∧
        (∀ x ∈ pre, x.bookID ≠ bookID) ∧ b.isAvailable = true ∧
        (L.removeBook bookID).lib = ⟨pre ++ post, L.nextBookID⟩ ∧
        (L.removeBook bookID).ret = true) := by
  cases hs : scan L.books bookID with
  | none =>
    left
    exact ⟨scan_eq_none.mp hs, by simp [removeBook, hs], by simp [removeBook, hs]⟩
  | some r =>
    obtain ⟨i, b⟩ := r
    obtain ⟨pre, post, hbooks, rfl, hid, hpre⟩ := scan_eq_some hs
    right
    cases hb : b.isAvailable with
    | false =>
      left
      exact ⟨pre, b, post, hbooks, hid, hpre, hb, by simp [removeBook, hs, hb],
        by simp [removeBook, hs, hb]⟩
    | true =>
      right
      refine ⟨pre, b, post, hbooks, hid, hpre, hb, ?_, by simp [removeBook, hs, hb]⟩
      rw [hbooks] at hs
      simp [removeBook, hs, hb, hbooks, eraseIdx_length_append]

theorem borrowBook_cases (L : Library) (bookID : Int) (name : String) (now : Int) :
    ((∀ x ∈ L.books, x.bookID ≠ bookID) ∧
        (L.borrowBook bookID name now).lib = L ∧ (L.borrowBook bookID name now).ret = false) ∨
    (∃ pre b post, L.books = pre ++ b :: post ∧ b.bookID = bookID ∧
        (∀ x ∈ pre, x.bookID ≠ bookID) ∧ b.isAvailable = false ∧
        (L.borrowBook bookID name now).lib = L ∧ (L.borrowBook bookID name now).ret = false) ∨
    (∃ pre b post, L.books = pre ++ b :: post ∧ b.bookID = bookID ∧
        (∀ x ∈ pre, x.bookID ≠ bookID) ∧ b.isAvailable = true ∧
        (L.borrowBook bookID name now).lib =
          ⟨pre ++ b.borrowBook name now Book.defaultDays :: post, L.nextBookID⟩ ∧
        (L.borrowBook bookID name now).ret = true) := by
  cases hs : scan L.books bookID with
  | none =>
    left
    exact ⟨scan_eq_none.mp hs, by simp [borrowBook, findBookByID, hs],
      by simp [borrowBook, findBookByID, hs]⟩
  | some r =>
    obtain ⟨i, b⟩ := r
    obtain ⟨pre, post, hbooks, rfl, hid, hpre⟩ := scan_eq_some hs
    right
    cases hb : b.isAvailable with
    | false =>
      left
      exact ⟨pre, b, post, hbooks, hid, hpre, hb, by simp [borrowBook, findBookByID, hs, hb],
        by simp [borrowBook, findBookByID, hs, hb]⟩
    | true =>
      right
      refine ⟨pre, b, post, hbooks, hid, hpre, hb, ?_, by simp [borrowBook, findBookByID, hs, hb]⟩
      rw [hbooks] at hs
      simp [borrowBook, findBookByID, hs, hb, hbooks, set_length_append]

theorem returnBook_cases (L : Library) (bookID : Int) (now : Int) :
    ((∀ x ∈ L.books, x.bookID ≠ bookID) ∧
        (L.returnBook bookID now).lib = L ∧ (L.returnBook bookID now).ret = false) ∨
    (∃ pre b post, L.books = pre ++ b :: post ∧ b.bookID = bookID ∧
        (∀ x ∈ pre, x.bookID ≠ bookID) ∧ b.isAvailable = true ∧
        (L.returnBook bookID now).lib = L ∧ (L.returnBook bookID now).ret = false) ∨
    (∃ pre b post, L.books = pre ++ b :: post ∧ b.bookID = bookID ∧
        (∀ x ∈ pre, x.bookID ≠ bookID) ∧ b.isAvailable = false ∧
        (L.returnBook bookID now).lib = ⟨pre ++ b.returnBook :: post, L.nextBookID⟩ ∧
        (L.returnBook bookID now).ret = true) := by
  cases hs : scan L.books bookID with
  | none =>
    left
    exact ⟨scan_eq_none.mp hs, by simp [returnBook, findBookByID, hs],
      by simp [returnBook, findBookByID, hs]⟩
  | some r =>
    obtain ⟨i, b⟩ := r
    obtain ⟨pre, post, hbooks, rfl, hid, hpre⟩ := scan_eq_some hs
    right
    cases hb : b.isAvailable with
    | true =>
      left
      exact ⟨pre, b, post, hbooks, hid, hpre, hb, by simp [returnBook, findBookByID, hs, hb],
        by simp [returnBook, findBookByID, hs, hb]⟩
    | false =>
      right
      refine ⟨pre, b, post, hbooks, hid, hpre, hb, ?_, by simp [returnBook, findBookByID, hs, hb]⟩
      rw [hbooks] at hs
      simp [returnBook, findBookByID, hs, hb, hbooks, set_length_append]

/-- In a list with pairwise distinct ids, the record holding a given id is the
only one: every other position holds another id. -/
theorem unique_decomp {pre : List Book} {b : Book} {post : List Book}
    (h : (ids (pre ++ b :: post)).Nodup) :
    (∀ x ∈ pre, x.bookID ≠ b.bookID) ∧ (∀ x ∈ post, x.bookID ≠ b.bookID) := by
  simp only [ids, List.map_append, List.map_cons] at h
  rw [List.nodup_append] at h
  obtain ⟨_, h2, h3⟩ := h
  constructor
  · intro x hx hEq
    exact h3 (List.mem_map_of_mem _ hx) (hEq ▸ List.mem_cons_self _ _)
  · intro x hx hEq
    rw [List.nodup_cons] at h2
    exact h2.1 (hEq ▸ List.mem_map_of_mem _ hx)

theorem unique_mem_eq {pre : List Book} {b : Book} {post : List Book}
    (h : (ids (pre ++ b :: post)).Nodup) {c : Book} (hc : c ∈ pre ++ b :: post)
    (hid : c.bookID = b.bookID) : c = b := by
  obtain ⟨h1, h2⟩ := unique_decomp h
  rcases List.mem_append.mp hc with hc | hc
  · exact absurd hid (h1 c hc)
  · rcases List.mem_cons.mp hc with hc | hc
    · exact hc
    · exact absurd hid (h2 c hc)

/-! ## Facts about the `int` range -/

theorem wrapInt32_of_inRange {x : Int} (h1 : -2147483648 ≤ x) (h2 : x < 2147483648) :
    wrapInt32 x = x := by
  unfold wrapInt32
  omega

theorem wrapInt32_idem (x : Int) : wrapInt32 (wrapInt32 x) = wrapInt32 x := by
  unfold wrapInt32
  omega

theorem wrapInt32_wrap_add (x y : Int) : wrapInt32 (wrapInt32 x + y) = wrapInt32 (x + y) := by
  unfold wrapInt32
  omega

theorem wrapInt32_range (x : Int) : -2147483648 ≤ wrapInt32 x ∧ wrapInt32 x < 2147483648 := by
  unfold wrapInt32
  omega

/-- Two of the first 4294967296 ids given out are different. -/
theorem wrapInt32_injOn {i j : Nat} (hij : i < j) (hj : j < 4294967296) :
    wrapInt32 (1001 + (i : Int)) ≠ wrapInt32 (1001 + (j : Int)) := by
  unfold wrapInt32
  omega

/-! ## Ids and counter under each operation -/

theorem removeBook_nextBookID (L : Library) (bookID : Int) :
    (L.removeBook bookID).lib.nextBookID = L.nextBookID := by
  rcases removeBook_cases L bookID with ⟨_, hl, _⟩ | ⟨_, _, _, _, _, _, _, hl, _⟩ |
    ⟨_, _, _, _, _, _, _, hl, _⟩ <;> simp [hl]

theorem borrowBook_nextBookID (L : Library) (bookID : Int) (name : String) (now : Int) :
    (L.borrowBook bookID name now).lib.nextBookID = L.nextBookID := by
  rcases borrowBook_cases L bookID name now with ⟨_, hl, _⟩ | ⟨_, _, _, _, _, _, _, hl, _⟩ |
    ⟨_, _, _, _, _, _, _, hl, _⟩ <;> simp [hl]

theorem returnBook_nextBookID (L : Library) (bookID : Int) (now : Int) :
    (L.returnBook bookID now).lib.nextBookID = L.nextBookID := by
  rcases returnBook_cases L bookID now with ⟨_, hl, _⟩ | ⟨_, _, _, _, _, _, _, hl, _⟩ |
    ⟨_, _, _, _, _, _, _, hl, _⟩ <;> simp [hl]

theorem addBook_nextBookID (L : Library) (t a i g : String) :
    (L.addBook t a i g).1.nextBookID = wrapInt32 (L.nextBookID + 1) :=
  rfl

theorem addBook_books (L : Library) (t a i g : String) :
    (L.addBook t a i g).1.books = L.books ++ [Book.new L.nextBookID t a i g] :=
  rfl

theorem ids_replace (pre post : List Book) {b c : Book} (h : c.bookID = b.bookID) :
    ids (pre ++ c :: post) = ids (pre ++ b :: post) := by
  simp [ids, h]

theorem ids_addBook (L : Library) (t a i g : String) :
    ids (L.addBook t a i g).1.books = ids L.books ++ [L.nextBookID] := by
  simp [addBook, ids, Book.new]

theorem ids_borrowBook (L : Library) (bookID : Int) (name : String) (now : Int) :
    ids (L.borrowBook bookID name now).lib.books = ids L.books := by
  rcases borrowBook_cases L bookID name now with ⟨_, hl, _⟩ | ⟨_, _, _, _, _, _, _, hl, _⟩ |
    ⟨pre, b, post, hbooks, _, _, _, hl, _⟩
  · rw [hl]
  · rw [hl]
  · rw [hl, hbooks]; exact ids_replace pre post rfl

theorem ids_returnBook (L : Library) (bookID : Int) (now : Int) :
    ids (L.returnBook bookID now).lib.books = ids L.books := by
  rcases returnBook_cases L bookID now with ⟨_, hl, _⟩ | ⟨_, _, _, _, _, _, _, hl, _⟩ |
    ⟨pre, b, post, hbooks, _, _, _, hl, _⟩
  · rw [hl]
  · rw [hl]
  · rw [hl, hbooks]; exact ids_replace pre post rfl

theorem ids_removeBook (L : Library) (bookID : Int) :
    ids (L.removeBook bookID).lib.books =
      if (L.removeBook bookID).ret = true then (ids L.books).erase bookID else ids L.books := by
  rcases removeBook_cases L bookID with ⟨_, hl, hr⟩ | ⟨_, _, _, _, _, _, _, hl, hr⟩ |
    ⟨pre, b, post, hbooks, hid, hpre, _, hl, hr⟩
  · simp [hl, hr]
  · simp [hl, hr]
  · have hnot : bookID ∉ List.map Book.bookID pre := by
      intro hmem
      obtain ⟨x, hx, hxid⟩ := List.mem_map.mp hmem
      exact hpre x hx hxid
    simp only [hl, hr, hbooks, ids, if_true, List.map_append, List.map_cons]
    rw [List.erase_append_right _ hnot, hid, List.erase_cons_head]

/-! ## Shape of single records -/

theorem defaultDays_seconds :
    intMul (intMul (intMul Book.defaultDays 24) 60) 60 = defaultLoanSeconds := by
  decide

theorem recordOK_new (id : Int) (t a i g : String) : RecordOK (Book.new id t a i g) := by
  simp [RecordOK, Book.new]

theorem recordOK_borrowBook (b : Book) (name : String) (now : Int) :
    RecordOK (b.borrowBook name now Book.defaultDays) := by
  simp [RecordOK, Book.borrowBook, defaultDays_seconds]

theorem recordOK_returnBook (b : Book) : RecordOK b.returnBook := by
  simp [RecordOK, Book.returnBook]

/-! ## The shape of the records holds in every reachable state -/

theorem recordsOK_replace {pre post : List Book} {b c : Book}
    (h : ∀ x ∈ pre ++ b :: post, RecordOK x) (hc : RecordOK c) :
    ∀ x ∈ pre ++ c :: post, RecordOK x := by
  intro x hx
  simp only [List.mem_append, List.mem_cons] at hx
  rcases hx with hx | rfl | hx
  · exact h x (by simp [hx])
  · exact hc
  · exact h x (by simp [hx])

theorem recordsOK_delete {pre post : List Book} {b : Book}
    (h : ∀ x ∈ pre ++ b :: post, RecordOK x) : ∀ x ∈ pre ++ post, RecordOK x := by
  intro x hx
  simp only [List.mem_append] at hx
  rcases hx with hx | hx
  · exact h x (by simp [hx])
  · exact h x (by simp [hx])

theorem recordsOK_step {L : Library} (h : ∀ b ∈ L.books, RecordOK b) (op : Op) :
    ∀ b ∈ (L.step op).books, RecordOK b := by
  cases op with
  | addBook t a i g =>
    intro x hx
    simp only [step, addBook, List.mem_append, List.mem_singleton] at hx
    rcases hx with hx | rfl
    · exact h x hx
    · exact recordOK_new _ _ _ _ _
  | removeBook bookID =>
    rcases removeBook_cases L bookID with ⟨_, hl, _⟩ | ⟨_, _, _, _, _, _, _, hl, _⟩ |
      ⟨pre, b, post, hbooks, _, _, _, hl, _⟩
    · simpa [step, hl] using h
    · simpa [step, hl] using h
    · have h0 : ∀ x ∈ pre ++ b :: post, RecordOK x := by rw [← hbooks]; exact h
      simpa [step, hl] using recordsOK_delete h0
  | borrowBook bookID name now =>
    rcases borrowBook_cases L bookID name now with ⟨_, hl, _⟩ | ⟨_, _, _, _, _, _, _, hl, _⟩ |
      ⟨pre, b, post, hbooks, _, _, _, hl, _⟩
    · simpa [step, hl] using h
    · simpa [step, hl] using h
    · have h0 : ∀ x ∈ pre ++ b :: post, RecordOK x := by rw [← hbooks]; exact h
      simpa [step, hl] using recordsOK_replace h0 (recordOK_borrowBook b name now)
  | returnBook bookID now =>
    rcases returnBook_cases L bookID now with ⟨_, hl, _⟩ | ⟨_, _, _, _, _, _, _, hl, _⟩ |
      ⟨pre, b, post, hbooks, _, _, _, hl, _⟩
    · simpa [step, hl] using h
    · simpa [step, hl] using h
    · have h0 : ∀ x ∈ pre ++ b :: post, RecordOK x := by rw [← hbooks]; exact h
      simpa [step, hl] using recordsOK_replace h0 (recordOK_returnBook b)

theorem recordsOK_run {L : Library} (h : ∀ b ∈ L.books, RecordOK b) (ops : List Op) :
    ∀ b ∈ (L.run ops).books, RecordOK b := by
  induction ops generalizing L with
  | nil => exact h
  | cons op ops ih => exact ih (recordsOK_step h op)

theorem recordsOK_of_reachable {L : Library} (h : L.Reachable) :
    ∀ b ∈ L.books, RecordOK b := by
  obtain ⟨ops, rfl⟩ := h
  exact recordsOK_run (by simp [Library.new]) ops

/-! ## Order and bounds of the ids while the counter has not wrapped -/

theorem inv_new : Library.new.Inv := by
  simp [Inv, Library.new, ids]

/-- Replacing one record by a well-shaped record with the same id keeps the
invariant. -/
theorem inv_replace {pre post : List Book} {b c : Book} {n : Int}
    (h : Inv ⟨pre ++ b :: post, n⟩) (hid : c.bookID = b.bookID) (hc : RecordOK c) :
    Inv ⟨pre ++ c :: post, n⟩ := by
  obtain ⟨h1, h2, h3, h4⟩ := h
  refine ⟨recordsOK_replace h1 hc, ?_, ?_, ?_⟩
  · simpa only [ids_replace pre post hid] using h2
  · intro x hx
    simp only [List.mem_append, List.mem_cons] at hx
    rcases hx with hx | rfl | hx
    · exact h3 x (by simp [hx])
    · rw [hid]; exact h3 b (by simp)
    · exact h3 x (by simp [hx])
  · simpa using h4

/-- Deleting one record keeps the invariant. -/
theorem inv_delete {pre post : List Book} {b : Book} {n : Int}
    (h : Inv ⟨pre ++ b :: post, n⟩) : Inv ⟨pre ++ post, n⟩ := by
  obtain ⟨h1, h2, h3, h4⟩ := h
  have hsub : (pre ++ post).Sublist (pre ++ b :: post) :=
    List.Sublist.append_left (List.sublist_cons_self b post) pre
  refine ⟨fun x hx => h1 x (hsub.subset hx), ?_, fun x hx => h3 x (hsub.subset hx), ?_⟩
  · exact List.Pairwise.sublist (List.Sublist.map _ hsub) h2
  · simp only [List.length_append, List.length_cons] at h4 ⊢
    push_cast at h4 ⊢
    omega

/-- The invariant forces the counter to be at least 1001. -/
theorem inv_counter_ge {L : Library} (h : L.Inv) : 1001 ≤ L.nextBookID := by
  have h4 := h.2.2.2
  have : (0 : Int) ≤ (L.books.length : Int) := Int.natCast_nonneg _
  omega

/-- While the counter is below the largest `int`, `addBook` keeps the
invariant and advances the counter by one. -/
theorem inv_addBook {L : Library} (h : L.Inv) (hlt : L.nextBookID < 2147483647)
    (t a i g : String) :
    (L.addBook t a i g).1.Inv ∧ (L.addBook t a i g).1.nextBookID = L.nextBookID + 1 := by
  have hge := inv_counter_ge h
  have hnext : (L.addBook t a i g).1.nextBookID = L.nextBookID + 1 := by
    rw [addBook_nextBookID]
    exact wrapInt32_of_inRange (by omega) (by omega)
  obtain ⟨h1, h2, h3, h4⟩ := h
  refine ⟨⟨?_, ?_, ?_, ?_⟩, hnext⟩
  · intro x hx
    rw [addBook_books] at hx
    rcases List.mem_append.mp hx with hx | hx
    · exact h1 x hx
    · rw [List.mem_singleton] at hx
      rw [hx]; exact recordOK_new _ _ _ _ _
  · rw [addBook_books]
    simp only [ids, List.map_append, List.map_cons, List.map_nil]
    rw [List.pairwise_append]
    refine ⟨h2, by simp, ?_⟩
    intro x hx y hy
    simp only [List.mem_singleton] at hy
    subst hy
    obtain ⟨c, hc, rfl⟩ := List.mem_map.mp hx
    exact (h3 c hc).2
  · intro x hx
    rw [addBook_books] at hx
    rw [hnext]
    rcases List.mem_append.mp hx with hx | hx
    · have := h3 x hx
      omega
    · rw [List.mem_singleton] at hx
      rw [hx]
      simp only [Book.new]
      omega
  · rw [hnext, addBook_books]
    simp only [List.length_append, List.length_singleton]
    push_cast
    omega

/-- Operations other than `addBook` keep the invariant. -/
theorem inv_removeBook {L : Library} (h : L.Inv) (bookID : Int) :
    (L.removeBook bookID).lib.Inv := by
  rcases removeBook_cases L bookID with ⟨_, hl, _⟩ | ⟨_, _, _, _, _, _, _, hl, _⟩ |
    ⟨pre, b, post, hbooks, _, _, _, hl, _⟩
  · rw [hl]; exact h
  · rw [hl]; exact h
  · have h0 : Inv ⟨pre ++ b :: post, L.nextBookID⟩ := by rw [← hbooks]; exact h
    rw [hl]; exact inv_delete h0

theorem inv_borrowBook {L : Library} (h : L.Inv) (bookID : Int) (name : String) (now : Int) :
    (L.borrowBook bookID name now).lib.Inv := by
  rcases borrowBook_cases L bookID name now with ⟨_, hl, _⟩ | ⟨_, _, _, _, _, _, _, hl, _⟩ |
    ⟨pre, b, post, hbooks, _, _, _, hl, _⟩
  · rw [hl]; exact h
  · rw [hl]; exact h
  · have h0 : Inv ⟨pre ++ b :: post, L.nextBookID⟩ := by rw [← hbooks]; exact h
    rw [hl]
    exact inv_replace (c := b.borrowBook name now Book.defaultDays) h0 rfl
      (recordOK_borrowBook b name now)

theorem inv_returnBook {L : Library} (h : L.Inv) (bookID : Int) (now : Int) :
    (L.returnBook bookID now).lib.Inv := by
  rcases returnBook_cases L bookID now with ⟨_, hl, _⟩ | ⟨_, _, _, _, _, _, _, hl, _⟩ |
    ⟨pre, b, post, hbooks, _, _, _, hl, _⟩
  · rw [hl]; exact h
  · rw [hl]; exact h
  · have h0 : Inv ⟨pre ++ b :: post, L.nextBookID⟩ := by rw [← hbooks]; exact h
    rw [hl]
    exact inv_replace (c := b.returnBook) h0 rfl (recordOK_returnBook b)

/-- A run keeps the invariant as long as the counter, advanced by the number of
its `addBook` calls, does not pass the largest `int`; the counter then stands
that many above its start. -/
theorem inv_run_of_le (ops : List Op) :
    ∀ L : Library, L.Inv → L.nextBookID + (countAdds ops : Int) ≤ 2147483647 →
      (L.run ops).Inv ∧ (L.run ops).nextBookID = L.nextBookID + (countAdds ops : Int) := by
  induction ops with
  | nil =>
    intro L h _
    exact ⟨h, by simp [run, countAdds]⟩
  | cons op ops ih =>
    intro L h hle
    cases op with
    | addBook t a i g =>
      simp only [countAdds, Nat.cast_add, Nat.cast_one] at hle
      have hnn : (0 : Int) ≤ (countAdds ops : Int) := Int.natCast_nonneg _
      obtain ⟨hI, hn⟩ := inv_addBook h (by omega) t a i g
      obtain ⟨hI2, hn2⟩ := ih (L.addBook t a i g).1 hI (by rw [hn]; omega)
      refine ⟨hI2, ?_⟩
      simp only [run, step, countAdds, Nat.cast_add, Nat.cast_one]
      rw [hn2, hn]
      omega
    | removeBook bookID =>
      simp only [countAdds] at hle
      obtain ⟨hI2, hn2⟩ := ih (L.removeBook bookID).lib (inv_removeBook h bookID)
        (by rw [removeBook_nextBookID]; exact hle)
      refine ⟨hI2, ?_⟩
      simp only [run, step, countAdds]
      rw [hn2, removeBook_nextBookID]
    | borrowBook bookID name now =>
      simp only [countAdds] at hle
      obtain ⟨hI2, hn2⟩ := ih (L.borrowBook bookID name now).lib (inv_borrowBook h bookID name now)
        (by rw [borrowBook_nextBookID]; exact hle)
      refine ⟨hI2, ?_⟩
      simp only [run, step, countAdds]
      rw [hn2, borrowBook_nextBookID]
    | returnBook bookID now =>
      simp only [countAdds] at hle
      obtain ⟨hI2, hn2⟩ := ih (L.returnBook bookID now).lib (inv_returnBook h bookID now)
        (by rw [returnBook_nextBookID]; exact hle)
      refine ⟨hI2, ?_⟩
      simp only [run, step, countAdds]
      rw [hn2, returnBook_nextBookID]

/-- Every state reached from a fresh `Library` with at most 2147482646 `addBook`
calls satisfies the invariant. -/
theorem inv_of_run_le {ops : List Op} (h : countAdds ops ≤ 2147482646) :
    (Library.new.run ops).Inv ∧
      (Library.new.run ops).nextBookID = 1001 + (countAdds ops : Int) := by
  have hle : Library.new.nextBookID + (countAdds ops : Int) ≤ 2147483647 := by
    have : (countAdds ops : Int) ≤ 2147482646 := by exact_mod_cast h
    simp only [Library.new]
    omega
  exact inv_run_of_le ops Library.new inv_new hle

theorem nodup_of_inv {L : Library} (h : L.Inv) : L.UniqueIDs := by
  have := h.2.1
  exact List.Pairwise.imp (fun hab => ne_of_lt hab) this

/-! ## Ids stay distinct for the first 4294967296 additions -/

theorem issued_new : Library.new.Issued 0 := by
  refine ⟨by decide, ?_, ?_⟩
  · intro a ha; simp [Library.new, ids] at ha
  · simp [Library.new, ids]

theorem issued_addBook {L : Library} {n : Nat} (h : L.Issued n) (t a i g : String) :
    (L.addBook t a i g).1.Issued (n + 1) := by
  obtain ⟨h1, h2, h3⟩ := h
  refine ⟨?_, ?_, ?_⟩
  · rw [addBook_nextBookID, h1, wrapInt32_wrap_add]
    push_cast
    rw [add_assoc]
  · intro x hx
    rw [ids_addBook] at hx
    rcases List.mem_append.mp hx with hx | hx
    · obtain ⟨k, hk, hxk⟩ := h2 x hx
      exact ⟨k, Nat.lt_succ_of_lt hk, hxk⟩
    · rw [List.mem_singleton] at hx
      exact ⟨n, Nat.lt_succ_self n, hx.trans h1⟩
  · rw [ids_addBook, List.pairwise_append]
    refine ⟨?_, by simp, ?_⟩
    · refine List.Pairwise.imp ?_ h3
      rintro x y ⟨k, l, hkl, hl, hx, hy⟩
      exact ⟨k, l, hkl, Nat.lt_succ_of_lt hl, hx, hy⟩
    · intro x hx y hy
      rw [List.mem_singleton] at hy
      obtain ⟨k, hk, hxk⟩ := h2 x hx
      exact ⟨k, n, hk, Nat.lt_succ_self n, hxk, hy.trans h1⟩

/-- A state with the same counter whose ids are a sub-sequence of the old ones
carries the same bookkeeping. -/
theorem issued_of_sublist {L L1 : Library} {n : Nat} (h : L.Issued n)
    (hn : L1.nextBookID = L.nextBookID) (hs : (ids L1.books).Sublist (ids L.books)) :
    L1.Issued n := by
  obtain ⟨h1, h2, h3⟩ := h
  exact ⟨hn.trans h1, fun x hx => h2 x (hs.subset hx), List.Pairwise.sublist hs h3⟩

theorem issued_step {L : Library} {n : Nat} (h : L.Issued n) (op : Op) :
    (L.step op).Issued (n + countAdds [op]) := by
  cases op with
  | addBook t a i g => exact issued_addBook h t a i g
  | removeBook bookID =>
    refine issued_of_sublist h (removeBook_nextBookID L bookID) ?_
    simp only [step]
    rw [ids_removeBook]
    split
    · exact List.erase_sublist _ _
    · exact List.Sublist.refl _
  | borrowBook bookID name now =>
    refine issued_of_sublist h (borrowBook_nextBookID L bookID name now) ?_
    simp only [step]
    rw [ids_borrowBook]
  | returnBook bookID now =>
    refine issued_of_sublist h (returnBook_nextBookID L bookID now) ?_
    simp only [step]
    rw [ids_returnBook]

theorem countAdds_cons (op : Op) (ops : List Op) :
    countAdds (op :: ops) = countAdds [op] + countAdds ops := by
  cases op <;> simp [countAdds, Nat.add_comm]

theorem countAdds_append (xs ys : List Op) :
    countAdds (xs ++ ys) = countAdds xs + countAdds ys := by
  induction xs with
  | nil => simp [countAdds]
  | cons op xs ih =>
    rw [List.cons_append, countAdds_cons, countAdds_cons op xs, ih, Nat.add_assoc]

theorem issued_run {L : Library} {n : Nat} (h : L.Issued n) (ops : List Op) :
    (L.run ops).Issued (n + countAdds ops) := by
  induction ops generalizing L n with
  | nil => simpa [run, countAdds] using h
  | cons op ops ih =>
    have := ih (issued_step h op)
    rw [countAdds_cons, ← Nat.add_assoc]
    exact this

theorem nodup_of_issued {L : Library} {n : Nat} (h : L.Issued n) (hn : n ≤ 4294967296) :
    L.UniqueIDs := by
  refine List.Pairwise.imp ?_ h.2.2
  rintro x y ⟨k, l, hkl, hl, hx, hy⟩
  rw [hx, hy]
  exact wrapInt32_injOn hkl (Nat.lt_of_lt_of_le hl hn)

/-- Every state reached from a fresh `Library` with at most 4294967296 `addBook`
calls has pairwise distinct ids. -/
theorem uniqueIDs_of_run_le {ops : List Op} (h : countAdds ops ≤ 4294967296) :
    (Library.new.run ops).UniqueIDs := by
  have := issued_run issued_new ops
  rw [Nat.zero_add] at this
  exact nodup_of_issued this h

theorem uniqueIDs_of_reachableWithin {L : Library} (h : L.ReachableWithin 4294967296) :
    L.UniqueIDs := by
  obtain ⟨ops, hle, rfl⟩ := h
  exact uniqueIDs_of_run_le hle

/-! ## Runs that take the counter to the end of the `int` range -/

theorem run_append (L : Library) (xs ys : List Op) :
    L.run (xs ++ ys) = (L.run xs).run ys := by
  induction xs generalizing L with
  | nil => rfl
  | cons op xs ih => exact ih (L.step op)

theorem countAdds_churn (c : Int) (m : Nat) : countAdds (churn c m) = m := by
  induction m generalizing c with
  | zero => rfl
  | succ m ih => simp [churn, countAdds, ih]

/-- One round: adding a record and removing the id just given out leaves the
records as they were and advances the counter. -/
theorem round_trip (bs : List Book) (c : Int) (t a i g : String)
    (h : ∀ b ∈ bs, b.bookID ≠ c) :
    ((Library.mk bs c).step (.addBook t a i g)).step (.removeBook c) =
      ⟨bs, wrapInt32 (c + 1)⟩ := by
  have hscan := @scan_append_of_not_mem bs (Book.new c t a i g) [] c rfl h
  simp only [step, addBook, removeBook, hscan]
  simp [Book.new, eraseIdx_length_append]

theorem run_churn (bs : List Book) (m : Nat) :
    ∀ c : Int, wrapInt32 c = c →
      (∀ k : Nat, k < m → ∀ b ∈ bs, b.bookID ≠ wrapInt32 (c + (k : Int))) →
      (Library.mk bs c).run (churn c m) = ⟨bs, wrapInt32 (c + (m : Int))⟩ := by
  induction m with
  | zero =>
    intro c hc _
    simp [churn, run, hc]
  | succ m ih =>
    intro c hc h
    have h0 : ∀ b ∈ bs, b.bookID ≠ c := by
      intro b hb
      have := h 0 (by omega) b hb
      simpa [hc] using this
    have hstep := round_trip bs c "Scratch" "Nobody" "000" "None" h0
    have hrest := ih (wrapInt32 (c + 1)) (wrapInt32_idem _) (by
      intro k hk b hb
      have := h (k + 1) (by omega) b hb
      rw [wrapInt32_wrap_add]
      push_cast at this
      rw [add_assoc, add_comm (1 : Int) (k : Int)]
      exact this)
    simp only [churn, run]
    rw [hstep, hrest, wrapInt32_wrap_add]
    push_cast
    rw [add_assoc, add_comm (1 : Int) (m : Int)]

theorem run_cons (L : Library) (op : Op) (ops : List Op) :
    L.run (op :: ops) = (L.step op).run ops :=
  rfl

theorem run_churn_new (m : Nat) :
    Library.new.run (churn 1001 m) = ⟨[], wrapInt32 (1001 + (m : Int))⟩ :=
  run_churn [] m 1001 (by decide) (fun _ _ b hb => absurd hb (List.not_mem_nil b))

/-- After 2147482646 rounds of adding and removing, the catalogue is empty and
the counter stands at the largest `int`. -/
theorem run_fullLibrary : Library.new.run (churn 1001 2147482646) = fullLibrary := by
  rw [run_churn_new]
  decide

/-- The run `wrappedOps` ends in `wrappedLibrary`. -/
theorem run_wrappedOps : Library.new.run wrappedOps = wrappedLibrary := by
  unfold wrappedOps
  rw [run_append, run_fullLibrary]
  decide

/-- The run `dupOps` ends in `dupLibrary`. -/
theorem run_dupOps : Library.new.run dupOps = dupLibrary := by
  have h2 : (Library.new.step
      (.addBook "1984" "George Orwell" "978-0451524935" "Dystopian")).step
      (.borrowBook 1001 "Alice" 0) = ⟨[dupFirst], 1002⟩ := by decide
  have hround : (Library.mk [dupFirst] 1002).run (churn 1002 4294967295) =
      ⟨[dupFirst], wrapInt32 (1002 + ((4294967295 : Nat) : Int))⟩ := by
    apply run_churn [dupFirst] 4294967295 1002 (by decide)
    intro k hk b hb
    rw [List.mem_singleton] at hb
    rw [hb]
    simp only [dupFirst]
    unfold wrapInt32
    omega
  have hlast : wrapInt32 (1002 + ((4294967295 : Nat) : Int)) = 1001 := by decide
  unfold dupOps
  rw [run_cons, run_cons, h2, run_append, hround, hlast]
  decide

theorem reachable_dupLibrary : dupLibrary.Reachable :=
  ⟨dupOps, run_dupOps⟩

/-! ## The ids given out by `addBook` -/

theorem range_map_succ {α : Type} (f : Nat → α) (n : Nat) :
    (List.range (n + 1)).map f = f 0 :: (List.range n).map (fun k => f (k + 1)) := by
  rw [List.range_succ_eq_map]
  simp [List.map_map, Function.comp_def]

/-- The ids given out by a run are the counter values `c`, `c + 1`, ... reduced
to the `int` range. -/
theorem assignedIDs_eq (ops : List Op) :
    ∀ L : Library, wrapInt32 L.nextBookID = L.nextBookID →
      L.assignedIDs ops =
        (List.range (countAdds ops)).map (fun k : Nat => wrapInt32 (L.nextBookID + (k : Int))) := by
  induction ops with
  | nil => intro L _; simp [assignedIDs, countAdds]
  | cons op ops ih =>
    intro L hL
    cases op with
    | addBook t a i g =>
      have hnext : (L.step (.addBook t a i g)).nextBookID = wrapInt32 (L.nextBookID + 1) := rfl
      have hnew : ids ((L.step (.addBook t a i g)).books.drop L.books.length) =
          [L.nextBookID] := by
        simp [step, addBook, ids, Book.new]
      simp only [assignedIDs, countAdds, range_map_succ]
      rw [hnew, ih _ (by rw [hnext]; exact wrapInt32_idem _), hnext]
      simp only [Nat.cast_zero, add_zero, hL, List.singleton_append, List.cons.injEq, true_and]
      apply List.map_congr_left
      intro k _
      rw [wrapInt32_wrap_add]
      push_cast
      rw [add_assoc, add_comm (1 : Int) (k : Int)]
    | removeBook bookID =>
      simp only [assignedIDs, countAdds]
      rw [ih _ (by simp only [step]; rw [removeBook_nextBookID]; exact hL)]
      simp only [step, removeBook_nextBookID]
    | borrowBook bookID name now =>
      simp only [assignedIDs, countAdds]
      rw [ih _ (by simp only [step]; rw [borrowBook_nextBookID]; exact hL)]
      simp only [step, borrowBook_nextBookID]
    | returnBook bookID now =>
      simp only [assignedIDs, countAdds]
      rw [ih _ (by simp only [step]; rw [returnBook_nextBookID]; exact hL)]
      simp only [step, returnBook_nextBookID]

theorem assignedIDs_new (ops : List Op) :
    Library.new.assignedIDs ops =
      (List.range (countAdds ops)).map (fun k : Nat => wrapInt32 (1001 + (k : Int))) :=
  assignedIDs_eq ops Library.new (by decide)

theorem range_map_pairwise (n : Nat) (c : Int) :
    ((List.range n).map (fun k : Nat => c + (k : Int))).Pairwise (· < ·) := by
  rw [List.pairwise_map]
  exact List.Pairwise.imp (fun {a b} (h : a < b) => by omega) (List.pairwise_lt_range n)

theorem getElem?_map_range {α : Type} (f : Nat → α) {i n : Nat} (h : i < n) :
    ((List.range n).map f)[i]? = some (f i) := by
  rw [List.getElem?_map, List.getElem?_range h]
  rfl

theorem assignedIDs_nodup (ops : List Op) (h : countAdds ops ≤ 4294967296) :
    (Library.new.assignedIDs ops).Nodup := by
  rw [assignedIDs_new]
  refine List.Nodup.map_on ?_ (List.nodup_range _)
  intro x hx y hy hxy
  rw [List.mem_range] at hx hy
  rcases Nat.lt_trichotomy x y with hlt | heq | hgt
  · exact absurd hxy (wrapInt32_injOn hlt (by omega))
  · exact heq
  · exact absurd hxy.symm (wrapInt32_injOn hgt (by omega))

theorem countAdds_overflowOps : countAdds overflowOps = 2147482648 := by
  unfold overflowOps
  rw [countAdds_append, countAdds_churn]
  rfl

/-- C1 as stated fails at the 2147482648th `addBook` call on a fresh `Library`
(here after 2147482647 rounds of adding and removing): the claim makes its id
`1001 + 2147482647 = 2147483648`, the `int` counter has wrapped and gives out
-2147483648, so the ids are neither `1001 + k` nor increasing. -/
theorem addBook_ids_wrap :
    countAdds overflowOps = 2147482648 ∧
    (Library.new.assignedIDs overflowOps)[2147482646]? = some 2147483647 ∧
    (Library.new.assignedIDs overflowOps)[2147482647]? = some (-2147483648) ∧
    Library.new.assignedIDs overflowOps ≠
      (List.range (countAdds overflowOps)).map (fun k : Nat => (1001 : Int) + (k : Int)) ∧
    ¬ (Library.new.assignedIDs overflowOps).Pairwise (· < ·) := by
  have hn := countAdds_overflowOps
  have h1 : (Library.new.assignedIDs overflowOps)[2147482646]? = some 2147483647 := by
    rw [assignedIDs_new, hn, getElem?_map_range _ (by decide)]
    decide
  have h2 : (Library.new.assignedIDs overflowOps)[2147482647]? = some (-2147483648) := by
    rw [assignedIDs_new, hn, getElem?_map_range _ (by decide)]
    decide
  refine ⟨hn, h1, h2, ?_, ?_⟩
  · intro heq
    rw [heq, hn, getElem?_map_range _ (by decide)] at h2
    revert h2
    decide
  · intro hp
    have hlt := List.pairwise_iff_getElem.mp hp
    have hlen : (Library.new.assignedIDs overflowOps).length = 2147482648 := by
      rw [assignedIDs_new, hn, List.length_map, List.length_range]
    have ha : 2147482646 < (Library.new.assignedIDs overflowOps).length := by
      rw [hlen]; decide
    have hb : 2147482647 < (Library.new.assignedIDs overflowOps).length := by
      rw [hlen]; decide
    have := hlt 2147482646 2147482647 ha hb (by decide)
    rw [List.getElem?_eq_getElem ha] at h1
    rw [List.getElem?_eq_getElem hb] at h2
    rw [Option.some.inj h1, Option.some.inj h2] at this
    revert this
    decide

/-- C1, amended. Whatever sequence of `addBook`, `removeBook`, `borrowBook` and
`returnBook` calls with at most 2147482647 `addBook` calls is applied to a
freshly constructed `Library`, the ids given out by its `addBook` calls are, in
call order, 1001, 1002, 1003, ...: the list of assigned ids is `1001 + k` for
`k = 0, 1, ...` up to the number of `addBook` calls, it increases strictly and no
id repeats; `removeBook` never changes `nextBookID`.  For every sequence, of any
length, the ids are `1001 + k` reduced to the `int` range, and they do not repeat
within the first 4294967296 `addBook` calls. -/
theorem addBook_ids_sequential (ops : List Op) (h : countAdds ops ≤ 2147482647) :
    Library.new.assignedIDs ops =
        (List.range (countAdds ops)).map (fun k : Nat => (1001 : Int) + (k : Int)) ∧
      (Library.new.assignedIDs ops).Pairwise (· < ·) ∧
      (Library.new.assignedIDs ops).Nodup ∧
      (∀ (L : Library) (bookID : Int), (L.removeBook bookID).lib.nextBookID = L.nextBookID) ∧
      (∀ ops2 : List Op, Library.new.assignedIDs ops2 =
        (List.range (countAdds ops2)).map (fun k : Nat => wrapInt32 (1001 + (k : Int)))) ∧
      (∀ ops2 : List Op, countAdds ops2 ≤ 4294967296 →
        (Library.new.assignedIDs ops2).Nodup) := by
  have heq : Library.new.assignedIDs ops =
      (List.range (countAdds ops)).map (fun k : Nat => (1001 : Int) + (k : Int)) := by
    rw [assignedIDs_new]
    apply List.map_congr_left
    intro k hk
    rw [List.mem_range] at hk
    exact wrapInt32_of_inRange (by omega) (by omega)
  have hp : (Library.new.assignedIDs ops).Pairwise (· < ·) := by
    rw [heq]; exact range_map_pairwise _ _
  exact ⟨heq, hp, List.Pairwise.imp (fun hab => ne_of_lt hab) hp, removeBook_nextBookID,
    assignedIDs_new, assignedIDs_nodup⟩

theorem addBook_ids_sequential_witness :
    countAdds lentOps ≤ 2147482647 ∧
    Library.new.assignedIDs lentOps = [1001, 1002, 1003, 1004, 1005, 1006, 1007] ∧
    (Library.new.assignedIDs lentOps).Pairwise (· < ·) :=
  ⟨by decide,
    (addBook_ids_sequential lentOps (by decide)).1.trans (by decide),
    (addBook_ids_sequential lentOps (by decide)).2.1⟩

/-! ## Contracts of `removeBook`, `borrowBook` and `returnBook` -/

theorem not_mem_of_unique {L : Library} (hU : L.UniqueIDs) {pre post : List Book} {b : Book}
    (hbooks : L.books = pre ++ b :: post) : ∀ x ∈ pre ++ post, x.bookID ≠ b.bookID := by
  have h : (ids (pre ++ b :: post)).Nodup := by rw [← hbooks]; exact hU
  obtain ⟨h1, h2⟩ := unique_decomp h
  intro x hx
  rcases List.mem_append.mp hx with hx | hx
  · exact h1 x hx
  · exact h2 x hx

theorem mem_eq_of_unique {L : Library} (hU : L.UniqueIDs) {pre post : List Book} {b : Book}
    (hbooks : L.books = pre ++ b :: post) {c : Book} (hc : c ∈ L.books)
    (hid : c.bookID = b.bookID) : c = b := by
  have h : (ids (pre ++ b :: post)).Nodup := by rw [← hbooks]; exact hU
  exact unique_mem_eq h (hbooks ▸ hc) hid

theorem returnBook_borrowBook_eq {b : Book} (name : String) (now : Int) (days : Int)
    (h : RecordOK b) (hb : b.isAvailable = true) :
    (b.borrowBook name now days).returnBook = b := by
  obtain ⟨h1, h2, h3⟩ := h.1 hb
  cases b
  simp_all [Book.borrowBook, Book.returnBook]

/-- C5 as stated fails in the reachable state `dupLibrary`, reached after the
counter has gone once around the `int` range: the id 1001 belongs to an available
record (the second one), yet `borrowBook(1001, "Bob")` returns false and changes
nothing, because the first record with that id is lent. -/
theorem borrow_fails_on_repeated_id :
    dupLibrary.Reachable ∧
    (∃ b ∈ dupLibrary.books, b.bookID = 1001 ∧ b.isAvailable = true) ∧
    (dupLibrary.borrowBook 1001 "Bob" 5).ret = false ∧
    (dupLibrary.borrowBook 1001 "Bob" 5).lib = dupLibrary :=
  ⟨reachable_dupLibrary, by decide, by decide, by decide⟩

/-- C5, amended.  In every reachable state whose ids are pairwise distinct
(every state reached with at most 4294967296 `addBook` calls is one), for every
id of an available record, every borrower name and every two clock values:
`borrowBook(id, name)` followed at once by `returnBook(id)` both return true,
and the resulting state is the state before the borrow: every record (the
borrowed one included, in all its fields), the order of the records and
`nextBookID` are as before, and the record with that id is available with an
empty borrower. -/
theorem borrow_then_return_restores (L : Library) (bookID : Int) (name : String)
    (now1 now2 : Int) (hR : L.Reachable) (hU : L.UniqueIDs)
    (hb : ∃ b ∈ L.books, b.bookID = bookID ∧ b.isAvailable = true) :
    (L.borrowBook bookID name now1).ret = true ∧
    ((L.borrowBook bookID name now1).lib.returnBook bookID now2).ret = true ∧
    ((L.borrowBook bookID name now1).lib.returnBook bookID now2).lib = L ∧
    (∀ c ∈ ((L.borrowBook bookID name now1).lib.returnBook bookID now2).lib.books,
        c.bookID = bookID → c.isAvailable = true ∧ c.borrowerName = "") := by
  have hI := recordsOK_of_reachable hR
  obtain ⟨c, hc, hcid, hca⟩ := hb
  rcases borrowBook_cases L bookID name now1 with ⟨hno, _, _⟩ |
    ⟨pre, b, post, hbooks, hid, hpre, hb, hl, hr⟩ | ⟨pre, b, post, hbooks, hid, hpre, hb, hl, hr⟩
  · exact absurd hcid (hno c hc)
  · have : c = b := mem_eq_of_unique hU hbooks hc (hcid.trans hid.symm)
    rw [this, hb] at hca; cases hca
  · have hcb : c = b := mem_eq_of_unique hU hbooks hc (hcid.trans hid.symm)
    have hok : RecordOK b := hI b (by simp [hbooks])
    have hscan := @scan_append_of_not_mem pre (b.borrowBook name now1 Book.defaultDays) post
      bookID hid hpre
    have hback := returnBook_borrowBook_eq name now1 Book.defaultDays hok hb
    have hL : L = ⟨pre ++ b :: post, L.nextBookID⟩ := by
      cases L; simp only at hbooks; rw [hbooks]
    have hfinal : ((L.borrowBook bookID name now1).lib.returnBook bookID now2).lib = L := by
      rw [hl]
      simp only [returnBook, findBookByID, hscan]
      simp [Book.borrowBook, set_length_append]
      rw [hL]
      simp only [Library.mk.injEq, and_true]
      exact congrArg (fun x => pre ++ x :: post) hback
    refine ⟨hr, ?_, hfinal, ?_⟩
    · rw [hl]
      simp only [returnBook, findBookByID, hscan]
      simp [Book.borrowBook]
    · rw [hfinal]
      intro d hd hdid
      have : d = b := mem_eq_of_unique hU hbooks hd (hdid.trans hid.symm)
      rw [this]
      exact ⟨hb, (hok.1 hb).1⟩

theorem borrow_then_return_restores_witness :
    seedLibrary.Reachable ∧ seedLibrary.UniqueIDs ∧
    (∃ b ∈ seedLibrary.books, b.bookID = 1003 ∧ b.isAvailable = true) ∧
    (seedLibrary.borrowBook 1003 "Alice" 1700000000).ret = true ∧
    ((seedLibrary.borrowBook 1003 "Alice" 1700000000).lib.returnBook 1003 1800000000).ret = true ∧
    ((seedLibrary.borrowBook 1003 "Alice" 1700000000).lib.returnBook 1003 1800000000).lib =
      seedLibrary ∧
    (∀ c ∈ ((seedLibrary.borrowBook 1003 "Alice" 1700000000).lib.returnBook 1003
          1800000000).lib.books,
        c.bookID = 1003 → c.isAvailable = true ∧ c.borrowerName = "") :=
  ⟨⟨seedOps, rfl⟩, by decide, by decide,
    borrow_then_return_restores seedLibrary 1003 "Alice" 1700000000 1800000000 ⟨seedOps, rfl⟩
      (by decide) (by decide)⟩

/-! ## Shape of the records and identity of the ids -/

/-- C6. In every state reached from a fresh `Library` by any sequence of
`addBook`, `removeBook`, `borrowBook` and `returnBook` calls (any arguments, names
and clock values), every record is available exactly when its borrower name is
empty and its borrow and due dates are both 0: no record is partially in the
borrowed state. -/
theorem record_never_partially_borrowed (ops : List Op) (b : Book)
    (hb : b ∈ (Library.new.run ops).books) :
    b.isAvailable = true ↔ (b.borrowerName = "" ∧ b.borrowDate = 0 ∧ b.dueDate = 0) := by
  have hok : RecordOK b := recordsOK_run (by simp [Library.new]) ops b hb
  constructor
  · exact hok.1
  · rintro ⟨_, h2, h3⟩
    cases hav : b.isAvailable with
    | true => rfl
    | false =>
      have := hok.2 hav
      rw [h2, h3] at this
      simp [defaultLoanSeconds] at this

theorem record_never_partially_borrowed_witness :
    lentBook ∈ (Library.new.run lentOps).books ∧
    (lentBook.isAvailable = true ↔
      (lentBook.borrowerName = "" ∧ lentBook.borrowDate = 0 ∧ lentBook.dueDate = 0)) :=
  ⟨by decide, record_never_partially_borrowed lentOps lentBook (by decide)⟩

theorem countAdds_dupOps : countAdds dupOps = 4294967297 := by
  unfold dupOps
  rw [countAdds_cons, countAdds_cons (.borrowBook 1001 "Alice" 0), countAdds_append,
    countAdds_churn]
  rfl

/-- C7 as stated fails for the run `dupOps`, whose 4294967297 `addBook` calls take
the `int` counter once around its range: the last call gives out the id 1001 a
second time while the first record with that id is still there. -/
theorem ids_repeat_after_wrap :
    countAdds dupOps = 4294967297 ∧
    ids (Library.new.run dupOps).books = [1001, 1001] ∧
    ¬ (ids (Library.new.run dupOps).books).Nodup := by
  rw [run_dupOps]
  exact ⟨countAdds_dupOps, by decide, by decide⟩

/-- C7, amended.  In every state reached from a fresh `Library` by a sequence of
`addBook`, `removeBook`, `borrowBook` and `returnBook` calls with at most
4294967296 `addBook` calls, the ids of the records are pairwise distinct; and no
operation changes the id of a record: the two mutators of a record keep its id,
`borrowBook` and `returnBook` leave the sequence of ids as it is, `removeBook`
only deletes the entry of the removed record, and `addBook` only appends the id
of the new record. -/
theorem ids_distinct_and_fixed (ops : List Op) (h : countAdds ops ≤ 4294967296) :
    (ids (Library.new.run ops).books).Nodup ∧
    (∀ (b : Book) (name : String) (now days : Int),
        (b.borrowBook name now days).bookID = b.bookID ∧ b.returnBook.bookID = b.bookID) ∧
    (∀ (bookID : Int) (name : String) (now : Int),
        ids ((Library.new.run ops).borrowBook bookID name now).lib.books =
          ids (Library.new.run ops).books) ∧
    (∀ (bookID : Int) (now : Int),
        ids ((Library.new.run ops).returnBook bookID now).lib.books =
          ids (Library.new.run ops).books) ∧
    (∀ (bookID : Int),
        ids ((Library.new.run ops).removeBook bookID).lib.books =
          if ((Library.new.run ops).removeBook bookID).ret = true then
            (ids (Library.new.run ops).books).erase bookID
          else ids (Library.new.run ops).books) ∧
    (∀ (t a i g : String),
        ids ((Library.new.run ops).addBook t a i g).1.books =
          ids (Library.new.run ops).books ++ [(Library.new.run ops).nextBookID]) :=
  ⟨uniqueIDs_of_run_le h, fun _ _ _ _ => ⟨rfl, rfl⟩,
    ids_borrowBook _, ids_returnBook _, ids_removeBook _, ids_addBook _⟩

theorem ids_distinct_and_fixed_witness :
    countAdds lentOps ≤ 4294967296 ∧
    (ids (Library.new.run lentOps).books).Nodup ∧
    ids (Library.new.run lentOps).books = [1001, 1002, 1003, 1004, 1005, 1006, 1007] :=
  ⟨by decide, (ids_distinct_and_fixed lentOps (by decide)).1, by decide⟩

/-! ## `addBook` -/

/-- C8 as stated fails in the state `fullLibrary` (empty catalogue, counter at
2147483647), which a fresh `Library` reaches by 2147482646 rounds of adding and
removing: `addBook` appends the record with id 2147483647, but the `int` counter
wraps to -2147483648 instead of growing by 1. -/
theorem addBook_counter_wraps :
    Library.new.run (churn 1001 2147482646) = fullLibrary ∧
    (fullLibrary.addBook "1984" "George Orwell" "978-0451524935" "Dystopian").1.books =
      [Book.new 2147483647 "1984" "George Orwell" "978-0451524935" "Dystopian"] ∧
    (fullLibrary.addBook "1984" "George Orwell" "978-0451524935" "Dystopian").1.nextBookID =
      -2147483648 ∧
    (fullLibrary.addBook "1984" "George Orwell" "978-0451524935" "Dystopian").1.nextBookID ≠
      fullLibrary.nextBookID + 1 :=
  ⟨run_fullLibrary, by decide, by decide, by decide⟩

/-- C8, amended. For every state (the counter being an `int` value) and
arguments, `addBook` yields a new state (it cannot fail): the records are the
original sequence, unchanged and in order, followed by one new record whose id is
the previous `nextBookID`, whose title, author, isbn and genre are the arguments,
and which is available with empty borrower and zero timestamps; `nextBookID`
grows by exactly 1, except that from 2147483647, the largest `int`, it wraps to
-2147483648; and the id printed is the id of the new record. -/
theorem addBook_appends (L : Library) (title author isbn genre : String)
    (h1 : -2147483648 ≤ L.nextBookID) (h2 : L.nextBookID ≤ 2147483647) :
    (L.addBook title author isbn genre).1.books =
        L.books ++ [{ bookID := L.nextBookID, title := title, author := author, isbn := isbn,
                      genre := genre, isAvailable := true, borrowerName := "",
                      borrowDate := 0, dueDate := 0 }] ∧
    (L.addBook title author isbn genre).1.nextBookID =
        (if L.nextBookID = 2147483647 then -2147483648 else L.nextBookID + 1) ∧
    (L.addBook title author isbn genre).1.books.length = L.books.length + 1 ∧
    (L.addBook title author isbn genre).2 =
      "\n✓ Book added successfully! Book ID: " ++ toString L.nextBookID ++ "\n" := by
  have hback : wrapInt32 (wrapInt32 (L.nextBookID + 1) - 1) = L.nextBookID := by
    unfold wrapInt32
    omega
  refine ⟨rfl, ?_, by simp [addBook], ?_⟩
  · rw [addBook_nextBookID]
    unfold wrapInt32
    split <;> omega
  · simp only [addBook, hback]

theorem addBook_appends_witness :
    -2147483648 ≤ seedLibrary.nextBookID ∧ seedLibrary.nextBookID ≤ 2147483647 ∧
    (seedLibrary.addBook "Dune" "Frank Herbert" "978-0441013593" "Science Fiction").1.books =
        seedLibrary.books ++
          [{ bookID := seedLibrary.nextBookID, title := "Dune", author := "Frank Herbert",
             isbn := "978-0441013593", genre := "Science Fiction", isAvailable := true,
             borrowerName := "", borrowDate := 0, dueDate := 0 }] ∧
    (seedLibrary.addBook "Dune" "Frank Herbert" "978-0441013593" "Science Fiction").1.nextBookID
      = (if seedLibrary.nextBookID = 2147483647 then -2147483648
          else seedLibrary.nextBookID + 1) ∧
    (seedLibrary.addBook "Dune" "Frank Herbert" "978-0441013593"
      "Science Fiction").1.books.length = seedLibrary.books.length + 1 ∧
    (seedLibrary.addBook "Dune" "Frank Herbert" "978-0441013593" "Science Fiction").2 =
      "\n✓ Book added successfully! Book ID: " ++ toString seedLibrary.nextBookID ++ "\n" :=
  ⟨by decide, by decide,
    addBook_appends seedLibrary "Dune" "Frank Herbert" "978-0441013593" "Science Fiction"
      (by decide) (by decide)⟩

/-! ## Due dates -/

theorem max_tdiv_eq_max_fdiv (x : Int) :
    max 0 (Int.tdiv x 86400) = max 0 (Int.fdiv x 86400) := by
  rcases le_or_lt 0 x with hx | hx
  · rw [Int.tdiv_eq_ediv hx (by omega), Int.fdiv_eq_ediv x (by omega)]
  · have h1 : Int.tdiv x 86400 ≤ 0 := by
      have := @Int.tdiv_nonneg (-x) 86400 (by omega) (by omega)
      rw [Int.neg_tdiv] at this
      omega
    have h2 : Int.fdiv x 86400 ≤ 0 := by
      rw [Int.fdiv_eq_ediv x (by omega)]
      omega
    rw [max_eq_left h1, max_eq_left h2]

theorem isOverdue_iff (b : Book) (now : Int) :
    b.isOverdue now = true ↔ b.isAvailable = false ∧ now > b.dueDate := by
  cases hb : b.isAvailable <;> simp [Book.isOverdue, hb]

/-- C9 as stated fails where the quotient does not fit an `int`. For the lent
record `farBook`, due 4294967301 days after clock value 0, the claim gives
4294967301 and the code returns 5; for the lent record `lateBook`, overdue by
2147483649 days at clock value 0, the claim gives 0 and the code returns
2147483647. -/
theorem getDaysUntilDue_narrows :
    farBook.isAvailable = false ∧
    max 0 (Int.fdiv (farBook.dueDate - 0) 86400) = 4294967301 ∧
    farBook.getDaysUntilDue 0 = 5 ∧
    lateBook.isAvailable = false ∧
    lateBook.isOverdue 0 = true ∧
    max 0 (Int.fdiv (lateBook.dueDate - 0) 86400) = 0 ∧
    lateBook.getDaysUntilDue 0 = 2147483647 := by
  decide

/-- C9, amended. For every record and every clock value `now`, `getDaysUntilDue`
returns -1 if the record is available, and for a borrowed record the result is
never negative.  Whenever the quotient `(dueDate - now) / 86400`, truncated
toward zero, is an `int` value (clock and due date less than 2147483648 days
apart), the result for a borrowed record is the floor of
`(dueDate - now) / 86400`, raised to 0 when negative; and whenever that quotient
is at least -2147483648, an overdue record reports 0. -/
theorem getDaysUntilDue_clamped (b : Book) (now : Int) :
    (b.isAvailable = true → b.getDaysUntilDue now = -1) ∧
    (b.isAvailable = false → 0 ≤ b.getDaysUntilDue now) ∧
    (-2147483648 ≤ Int.tdiv (b.dueDate - now) 86400 →
      Int.tdiv (b.dueDate - now) 86400 ≤ 2147483647 →
        b.getDaysUntilDue now =
          (if b.isAvailable = true then -1
            else max 0 (Int.fdiv (b.dueDate - now) 86400))) ∧
    (-2147483648 ≤ Int.tdiv (b.dueDate - now) 86400 →
      b.isOverdue now = true → b.getDaysUntilDue now = 0) := by
  have h24 : (24 * 60 * 60 : Int) = 86400 := by norm_num
  refine ⟨?_, ?_, ?_, ?_⟩
  · intro hb; simp [Book.getDaysUntilDue, hb]
  · intro hb; simp [Book.getDaysUntilDue, hb]
  · intro h1 h2
    unfold Book.getDaysUntilDue
    split
    · rfl
    · simp only [h24]
      rw [wrapInt32_of_inRange h1 (by omega)]
      exact max_tdiv_eq_max_fdiv _
  · intro h1 ho
    obtain ⟨hb, hlate⟩ := (isOverdue_iff b now).mp ho
    have hneg : Int.tdiv (b.dueDate - now) 86400 ≤ 0 := by
      have := @Int.tdiv_nonneg (-(b.dueDate - now)) 86400 (by omega) (by omega)
      rw [Int.neg_tdiv] at this
      omega
    simp only [Book.getDaysUntilDue, hb, Bool.false_eq_true, if_false, h24]
    rw [wrapInt32_of_inRange h1 (by omega)]
    exact max_eq_left hneg

theorem getDaysUntilDue_clamped_witness :
    -2147483648 ≤ Int.tdiv (lentBook.dueDate - 1701000000) 86400 ∧
    Int.tdiv (lentBook.dueDate - 1701000000) 86400 ≤ 2147483647 ∧
    lentBook.getDaysUntilDue 1701000000 =
      (if lentBook.isAvailable = true then -1
        else max 0 (Int.fdiv (lentBook.dueDate - 1701000000) 86400)) ∧
    lentBook.getDaysUntilDue 1701000000 = 2 ∧
    lentBook.isOverdue 1800000000 = true ∧ lentBook.getDaysUntilDue 1800000000 = 0 :=
  ⟨by decide, by decide,
    (getDaysUntilDue_clamped lentBook 1701000000).2.2.1 (by decide) (by decide),
    by decide, by decide,
    (getDaysUntilDue_clamped lentBook 1800000000).2.2.2 (by decide) (by decide)⟩

/-- While the loan period is at most 24855 days (in either direction) the product
`days * 24 * 60 * 60` fits an `int` and the due date is the borrow date plus the
period in seconds. -/
theorem borrowBook_dueDate_of_inRange (b : Book) (name : String) (now days : Int)
    (h1 : -24855 ≤ days) (h2 : days ≤ 24855) :
    (b.borrowBook name now days).dueDate = now + days * 86400 := by
  have e1 : wrapInt32 (days * 24) = days * 24 :=
    wrapInt32_of_inRange (by omega) (by omega)
  have e2 : wrapInt32 (days * 24 * 60) = days * 24 * 60 :=
    wrapInt32_of_inRange (by omega) (by omega)
  have e3 : wrapInt32 (days * 24 * 60 * 60) = days * 24 * 60 * 60 :=
    wrapInt32_of_inRange (by omega) (by omega)
  simp only [Book.borrowBook, intMul, e1, e2, e3]
  omega

/-- C10, at the input where the code departs from it. A record lent at clock
value 0 for 24856 days should be due at `0 + 24856 * 86400 = 2147558400` and so
not be overdue at clock value 1. `Book::borrowBook` evaluates
`days * 24 * 60 * 60` in `int`: the product wraps to -2147408896, the stored due
date lies before the borrow date, and `isOverdue` already answers true at clock
value 1. -/
theorem isOverdue_long_loan_wraps :
    longLoanBook.isAvailable = false ∧
    longLoanBook.borrowDate = 0 ∧
    longLoanBook.dueDate = -2147408896 ∧
    longLoanBook.isOverdue 1 = true ∧
    ¬ ((1 : Int) > longLoanBook.borrowDate + 24856 * 86400) := by
  decide

/-! ## Searches -/

theorem findFrom_isSome_iff (needle hay : List Char) :
    (findFrom needle hay).isSome = true ↔ needle <:+: hay := by
  induction hay with
  | nil =>
    cases needle with
    | nil => simp [findFrom]
    | cons c cs => simp [findFrom]
  | cons c hay ih =>
    rw [List.infix_cons_iff]
    by_cases hp : needle.isPrefixOf (c :: hay) = true
    · have hp2 : needle <+: c :: hay := List.isPrefixOf_iff_prefix.mp hp
      simp [findFrom, hp, hp2]
    · have hp2 : ¬ needle <+: c :: hay := fun h => hp (List.isPrefixOf_iff_prefix.mpr h)
      cases hf : findFrom needle hay with
      | none =>
        have hn : ¬ needle <:+: hay := by
          intro h; have := ih.mpr h; rw [hf] at this; cases this
        simp [findFrom, hp, hf, hp2, hn]
      | some i =>
        have hy : needle <:+: hay := ih.mp (by rw [hf]; rfl)
        simp [findFrom, hp, hf, hy]

theorem stringFind_isSome_iff (hay needle : String) :
    (stringFind hay needle).isSome = true ↔ needle.toList <:+: hay.toList :=
  findFrom_isSome_iff _ _

theorem collect_eq_filter (keep : Book → Bool) (bs results : List Book) :
    collect keep bs results = results ++ bs.filter keep := by
  induction bs generalizing results with
  | nil => simp [collect]
  | cons b bs ih =>
    cases hk : keep b <;> simp [collect, ih, hk]

theorem collect_find_eq (field : Book → String) (s : String) (bs : List Book) :
    collect (fun book => (stringFind (field book) s).isSome) bs [] =
      bs.filter (fun b => decide (s.toList <:+: (field b).toList)) := by
  rw [collect_eq_filter, List.nil_append]
  apply List.filter_congr
  intro b _
  beta_reduce
  by_cases h : s.toList <:+: (field b).toList
  · rw [(stringFind_isSome_iff (field b) s).mpr h]
    exact (decide_eq_true h).symm
  · have : (stringFind (field b) s).isSome = false := by
      cases hh : (stringFind (field b) s).isSome with
      | false => rfl
      | true => exact absurd ((stringFind_isSome_iff (field b) s).mp hh) h
    rw [this]
    exact (decide_eq_false h).symm

theorem searchByTitle_results (ctime : Int → String) (L : Library) (s : String) :
    (L.searchByTitle ctime s).results =
      L.books.filter (fun b => decide (s.toList <:+: b.title.toList)) := by
  have h := collect_find_eq Book.title s L.books
  simp only [searchByTitle]
  split <;> exact h

theorem searchByAuthor_results (ctime : Int → String) (L : Library) (s : String) :
    (L.searchByAuthor ctime s).results =
      L.books.filter (fun b => decide (s.toList <:+: b.author.toList)) := by
  have h := collect_find_eq Book.author s L.books
  simp only [searchByAuthor]
  split <;> exact h

theorem searchByGenre_results (ctime : Int → String) (L : Library) (s : String) :
    (L.searchByGenre ctime s).results =
      L.books.filter (fun b => decide (s.toList <:+: b.genre.toList)) := by
  have h := collect_find_eq Book.genre s L.books
  simp only [searchByGenre]
  split <;> exact h

theorem search_lib (ctime : Int → String) (L : Library) (s : String) :
    (L.searchByTitle ctime s).lib = L ∧ (L.searchByAuthor ctime s).lib = L ∧
      (L.searchByGenre ctime s).lib = L := by
  refine ⟨?_, ?_, ?_⟩
  · simp only [searchByTitle]; split <;> rfl
  · simp only [searchByAuthor]; split <;> rfl
  · simp only [searchByGenre]; split <;> rfl

/-- C11. For every state and every query string `s`, the vector `results` built
by `searchByTitle(s)` (and likewise by `searchByAuthor` and `searchByGenre`) is
the sub-sequence of the records, in collection order, whose title (author,
genre) contains `s` as a contiguous, case-sensitive substring at any position;
the search leaves the state as it is.  When no record matches, `results` is
empty; so it is for `searchByTitle("zzz-nomatch")` on the seven records of the
start-up catalogue, which prints the no-books message and leaves that catalogue
unchanged. -/
theorem search_results_are_matches (ctime : Int → String) (L : Library) (s : String) :
    ((L.searchByTitle ctime s).results =
        L.books.filter (fun b => decide (s.toList <:+: b.title.toList)) ∧
      (L.searchByTitle ctime s).lib = L) ∧
    ((L.searchByAuthor ctime s).results =
        L.books.filter (fun b => decide (s.toList <:+: b.author.toList)) ∧
      (L.searchByAuthor ctime s).lib = L) ∧
    ((L.searchByGenre ctime s).results =
        L.books.filter (fun b => decide (s.toList <:+: b.genre.toList)) ∧
      (L.searchByGenre ctime s).lib = L) ∧
    ((∀ b ∈ L.books, ¬ s.toList <:+: b.title.toList) → (L.searchByTitle ctime s).results = []) ∧
    ((∀ b ∈ L.books, ¬ s.toList <:+: b.author.toList) →
      (L.searchByAuthor ctime s).results = []) ∧
    ((∀ b ∈ L.books, ¬ s.toList <:+: b.genre.toList) → (L.searchByGenre ctime s).results = []) ∧
    seedLibrary.books.length = 7 ∧
    (seedLibrary.searchByTitle ctime "zzz-nomatch").results = [] ∧
    (seedLibrary.searchByTitle ctime "zzz-nomatch").lib = seedLibrary ∧
    (seedLibrary.searchByTitle ctime "zzz-nomatch").out =
      "\n✗ No books found with that title!\n" := by
  obtain ⟨h1, h2, h3⟩ := search_lib ctime L s
  refine ⟨⟨searchByTitle_results ctime L s, h1⟩, ⟨searchByAuthor_results ctime L s, h2⟩,
    ⟨searchByGenre_results ctime L s, h3⟩, ?_, ?_, ?_, rfl, rfl, rfl, rfl⟩
  · intro h
    rw [searchByTitle_results, List.filter_eq_nil_iff]
    intro b hb; simpa using h b hb
  · intro h
    rw [searchByAuthor_results, List.filter_eq_nil_iff]
    intro b hb; simpa using h b hb
  · intro h
    rw [searchByGenre_results, List.filter_eq_nil_iff]
    intro b hb; simpa using h b hb

/-! ## `findBookByID` -/

/-- C12 as stated fails in the reachable state `dupLibrary`, reached after the
counter has gone once around the `int` range: `findBookByID(1001)` returns the
first record, and the second record carries the id 1001 as well. -/
theorem findBookByID_not_only_match :
    dupLibrary.Reachable ∧
    dupLibrary.findBookByID 1001 = some (0, dupFirst) ∧
    dupLibrary.books = [] ++ dupFirst :: [dupSecond] ∧
    dupSecond.bookID = 1001 ∧ dupSecond ≠ dupFirst :=
  ⟨reachable_dupLibrary, by decide, by decide, by decide, by decide⟩

/-- C12, amended.  For every state and id, `findBookByID(id)` returns `nullptr`
exactly when no record has that id; when some record has it, the call returns a
record, and the record returned is the first one in collection order whose id is
`id` (no record before its position has that id).  In every state reached from a
fresh `Library` with at most 4294967296 `addBook` calls, and more generally in
every state whose ids are pairwise distinct, the record returned is the only
record with that id. -/
theorem findBookByID_first_match (L : Library) (bookID : Int) :
    (L.findBookByID bookID = none ↔ ∀ b ∈ L.books, b.bookID ≠ bookID) ∧
    ((∃ b ∈ L.books, b.bookID = bookID) → ∃ p b, L.findBookByID bookID = some (p, b)) ∧
    (∀ (p : Nat) (b : Book), L.findBookByID bookID = some (p, b) →
      ∃ pre post, L.books = pre ++ b :: post ∧ p = pre.length ∧ b.bookID = bookID ∧
        ∀ x ∈ pre, x.bookID ≠ bookID) ∧
    (L.ReachableWithin 4294967296 → L.UniqueIDs) ∧
    (L.UniqueIDs → ∀ (p : Nat) (b : Book), L.findBookByID bookID = some (p, b) →
      ∀ pre post, L.books = pre ++ b :: post → p = pre.length →
        ∀ x ∈ pre ++ post, x.bookID ≠ bookID) := by
  refine ⟨scan_eq_none, ?_, fun p b h => scan_eq_some h, uniqueIDs_of_reachableWithin, ?_⟩
  · rintro ⟨b, hb, hid⟩
    cases hs : L.findBookByID bookID with
    | none => exact absurd hid (scan_eq_none.mp hs b hb)
    | some r => exact ⟨r.1, r.2, rfl⟩
  · intro hU p b h pre post hbooks _ x hx
    obtain ⟨_, _, _, _, hid, _⟩ := scan_eq_some h
    have := not_mem_of_unique hU hbooks x hx
    rw [hid] at this
    exact this

theorem findBookByID_first_match_witness :
    lentLibrary.ReachableWithin 4294967296 ∧
    lentLibrary.findBookByID 1003 = some (2, lentBook) ∧
    (∀ pre post, lentLibrary.books = pre ++ lentBook :: post → 2 = pre.length →
      ∀ x ∈ pre ++ post, x.bookID ≠ 1003) :=
  ⟨⟨lentOps, by decide, rfl⟩, by decide,
    (findBookByID_first_match lentLibrary 1003).2.2.2.2
      ((findBookByID_first_match lentLibrary 1003).2.2.2.1 ⟨lentOps, by decide, rfl⟩)
      2 lentBook (by decide)⟩

/-! ## The scenario -/

/-- C13. On a fresh `Library`, whatever the clock values of the calls:
`addBook("1984", "George Orwell", "978-0451524935", "Dystopian")` assigns id
1001; `borrowBook(1001, "Alice")` returns true; a second
`borrowBook(1001, "Bob")` returns false and `findBookByID(1001)` still has
borrower "Alice"; `returnBook(1001)` then returns true and the record is
available again; `removeBook(1001)` then returns true and `getTotalBooks()` is
0. -/
theorem scenario_1984 (t1 t2 t3 : Int) :
    Library.new.assignedIDs
        [.addBook "1984" "George Orwell" "978-0451524935" "Dystopian"] = [1001] ∧
    ids afterAdd.books = [1001] ∧
    (afterBorrow t1).ret = true ∧
    (afterSecondBorrow t1 t2).ret = false ∧
    (∃ p b, (afterSecondBorrow t1 t2).lib.findBookByID 1001 = some (p, b) ∧
      b.borrowerName = "Alice" ∧ b.isAvailable = false) ∧
    (afterReturn t1 t2 t3).ret = true ∧
    (∃ p b, (afterReturn t1 t2 t3).lib.findBookByID 1001 = some (p, b) ∧
      b.isAvailable = true ∧ b.borrowerName = "") ∧
    (afterRemove t1 t2 t3).ret = true ∧
    (afterRemove t1 t2 t3).lib.getTotalBooks = 0 ∧
    (afterRemove t1 t2 t3).lib.findBookByID 1001 = none :=
  ⟨rfl, rfl, rfl, rfl, ⟨0, _, rfl, rfl, rfl⟩, rfl, ⟨0, _, rfl, rfl, rfl⟩, rfl, rfl, rfl⟩

/-! ## `Book::borrowBook` -/

/-- Whatever the record (available or lent), the name, the loan period and the
clock value, `Book::borrowBook` checks nothing and sets `isAvailable`,
`borrowerName` and `borrowDate`; the other fields set by the constructor stay. -/
theorem borrowBook_sets (b : Book) (name : String) (now days : Int) :
    (b.borrowBook name now days).isAvailable = false ∧
    (b.borrowBook name now days).borrowerName = name ∧
    (b.borrowBook name now days).borrowDate = now ∧
    (b.borrowBook name now days).fixedFields = b.fixedFields :=
  ⟨rfl, rfl, rfl, rfl⟩

/-- C14, at the input where the code departs from it. `borrowBook("Bob", 24856)`
at clock value 1700000000 on a record already lent to Alice is not refused and
sets `isAvailable = false`, `borrowerName = "Bob"` and `borrowDate = 1700000000`
as claimed, but the due date stored is -447408896, before the borrow date, and
not `1700000000 + 24856 * 86400 = 3847558400`: the product
`days * 24 * 60 * 60` is evaluated in `int` and wraps. -/
theorem borrowBook_long_loan_dueDate :
    lentBook.isAvailable = false ∧
    relentBook.isAvailable = false ∧
    relentBook.borrowerName = "Bob" ∧
    relentBook.borrowDate = 1700000000 ∧
    relentBook.dueDate = -447408896 ∧
    relentBook.dueDate ≠ 1700000000 + 24856 * 86400 ∧
    relentBook.dueDate < relentBook.borrowDate := by
  decide

/-! ## Transitions of a record -/

/-- Shape of one call: either the state is unchanged, or `addBook` appended a new
record, or a successful `removeBook` deleted an available record, or a
successful `borrowBook` (`returnBook`) replaced an available (lent) record by a
lent (available) one with the same id; all other records stay as they are. -/
theorem step_shape (L : Library) (op : Op) :
    L.step op = L ∨
    (∃ t a i g, op = .addBook t a i g ∧
      (L.step op).books = L.books ++ [Book.new L.nextBookID t a i g] ∧
      (Book.new L.nextBookID t a i g).isAvailable = true) ∨
    (∃ pre b post, op = .removeBook b.bookID ∧ (L.removeBook b.bookID).ret = true ∧
      L.books = pre ++ b :: post ∧ b.isAvailable = true ∧ (L.step op).books = pre ++ post) ∨
    (∃ name now pre b c post, op = .borrowBook b.bookID name now ∧
      (L.borrowBook b.bookID name now).ret = true ∧ L.books = pre ++ b :: post ∧
      (L.step op).books = pre ++ c :: post ∧ c.bookID = b.bookID ∧
      b.isAvailable = true ∧ c.isAvailable = false) ∨
    (∃ now pre b c post, op = .returnBook b.bookID now ∧
      (L.returnBook b.bookID now).ret = true ∧ L.books = pre ++ b :: post ∧
      (L.step op).books = pre ++ c :: post ∧ c.bookID = b.bookID ∧
      b.isAvailable = false ∧ c.isAvailable = true) := by
  cases op with
  | addBook t a i g =>
    right; left
    exact ⟨t, a, i, g, rfl, rfl, rfl⟩
  | removeBook bookID =>
    rcases removeBook_cases L bookID with ⟨_, hl, _⟩ | ⟨_, _, _, _, _, _, _, hl, _⟩ |
      ⟨pre, b, post, hbooks, hid, _, hb, hl, hr⟩
    · left; simpa [step] using hl
    · left; simpa [step] using hl
    · right; right; left
      subst hid
      exact ⟨pre, b, post, rfl, hr, hbooks, hb, by simp [step, hl]⟩
  | borrowBook bookID name now =>
    rcases borrowBook_cases L bookID name now with ⟨_, hl, _⟩ | ⟨_, _, _, _, _, _, _, hl, _⟩ |
      ⟨pre, b, post, hbooks, hid, _, hb, hl, hr⟩
    · left; simpa [step] using hl
    · left; simpa [step] using hl
    · right; right; right; left
      subst hid
      exact ⟨name, now, pre, b, b.borrowBook name now Book.defaultDays, post, rfl, hr, hbooks,
        by simp [step, hl], rfl, hb, rfl⟩
  | returnBook bookID now =>
    rcases returnBook_cases L bookID now with ⟨_, hl, _⟩ | ⟨_, _, _, _, _, _, _, hl, _⟩ |
      ⟨pre, b, post, hbooks, hid, _, hb, hl, hr⟩
    · left; simpa [step] using hl
    · left; simpa [step] using hl
    · right; right; right; right
      subst hid
      exact ⟨now, pre, b, b.returnBook, post, rfl, hr, hbooks, by simp [step, hl], rfl, hb, rfl⟩

theorem eq_of_same_id {L : Library} (hU : L.UniqueIDs) {x y : Book} (hx : x ∈ L.books)
    (hy : y ∈ L.books) (h : x.bookID = y.bookID) : x = y :=
  List.inj_on_of_nodup_map hU hx hy h

/-- Transitions of the record with a given id, in states whose ids are pairwise
distinct before and after the call. -/
theorem availability_by_id (L : Library) (op : Op) (hU : L.UniqueIDs)
    (hU2 : (L.step op).UniqueIDs) :
    (∀ b ∈ L.books, ∀ c ∈ (L.step op).books, c.bookID = b.bookID →
      c.isAvailable ≠ b.isAvailable →
        (b.isAvailable = true ∧ c.isAvailable = false ∧
          ∃ name now, op = .borrowBook b.bookID name now ∧
            (L.borrowBook b.bookID name now).ret = true) ∨
        (b.isAvailable = false ∧ c.isAvailable = true ∧
          ∃ now, op = .returnBook b.bookID now ∧ (L.returnBook b.bookID now).ret = true)) ∧
    (∀ c ∈ (L.step op).books, (∀ b ∈ L.books, b.bookID ≠ c.bookID) →
      c.isAvailable = true ∧ ∃ t a i g, op = .addBook t a i g) ∧
    (∀ b ∈ L.books, (∀ c ∈ (L.step op).books, c.bookID ≠ b.bookID) →
      b.isAvailable = true ∧ op = .removeBook b.bookID ∧
        (L.removeBook b.bookID).ret = true) := by
  rcases step_shape L op with hsame | ⟨t, a, i, g, hop, hbooks', _⟩ |
    ⟨pre, b0, post, hop, hret, hbooks, hav, hbooks'⟩ |
    ⟨name, now, pre, b0, c0, post, hop, hret, hbooks, hbooks', hcid, hav, hcav⟩ |
    ⟨now, pre, b0, c0, post, hop, hret, hbooks, hbooks', hcid, hav, hcav⟩
  · rw [hsame]
    refine ⟨?_, ?_, ?_⟩
    · intro b hb c hc hid hne
      exact absurd (congrArg Book.isAvailable (eq_of_same_id hU hc hb hid)) hne
    · intro c hc h
      exact absurd rfl (h c hc)
    · intro b hb h
      exact absurd rfl (h b hb)
  · unfold UniqueIDs at hU2
    rw [hbooks'] at hU2 ⊢
    refine ⟨?_, ?_, ?_⟩
    · intro b hb c hc hid hne
      have hcb : c = b :=
        List.inj_on_of_nodup_map hU2 hc (List.mem_append_left _ hb) hid
      exact absurd (congrArg Book.isAvailable hcb) hne
    · intro c hc h
      rcases List.mem_append.mp hc with hc | hc
      · exact absurd rfl (h c hc)
      · rw [List.mem_singleton] at hc
        rw [hc]
        exact ⟨rfl, t, a, i, g, hop⟩
    · intro b hb h
      exact absurd rfl (h b (List.mem_append_left _ hb))
  · have hsub : ∀ x ∈ pre ++ post, x ∈ L.books := by
      intro x hx
      rw [hbooks]
      rcases List.mem_append.mp hx with hx | hx
      · exact List.mem_append_left _ hx
      · exact List.mem_append_right _ (List.mem_cons_of_mem _ hx)
    rw [hbooks']
    refine ⟨?_, ?_, ?_⟩
    · intro b hb c hc hid hne
      exact absurd (congrArg Book.isAvailable (eq_of_same_id hU (hsub c hc) hb hid)) hne
    · intro c hc h
      exact absurd rfl (h c (hsub c hc))
    · intro b hb h
      have hb0 : b = b0 := by
        rw [hbooks] at hb
        rcases List.mem_append.mp hb with hb | hb
        · exact absurd rfl (h b (List.mem_append_left _ hb))
        · rcases List.mem_cons.mp hb with hb | hb
          · exact hb
          · exact absurd rfl (h b (List.mem_append_right _ hb))
      rw [hb0]
      exact ⟨hav, hop, hret⟩
  · have hb0 : b0 ∈ L.books := by rw [hbooks]; simp
    have hold : ∀ x ∈ pre ++ c0 :: post, x = c0 ∨ x ∈ L.books := by
      intro x hx
      rw [hbooks]
      rcases List.mem_append.mp hx with hx | hx
      · exact Or.inr (List.mem_append_left _ hx)
      · rcases List.mem_cons.mp hx with hx | hx
        · exact Or.inl hx
        · exact Or.inr (List.mem_append_right _ (List.mem_cons_of_mem _ hx))
    have hc0 : c0 ∈ pre ++ c0 :: post := by simp
    rw [hbooks']
    refine ⟨?_, ?_, ?_⟩
    · intro b hb c hc hid hne
      rcases hold c hc with rfl | hc
      · have hbb : b = b0 := eq_of_same_id hU hb hb0 (hid.symm.trans hcid)
        left
        rw [hbb]
        exact ⟨hav, hcav, name, now, hop, hret⟩
      · exact absurd (congrArg Book.isAvailable (eq_of_same_id hU hc hb hid)) hne
    · intro c hc h
      rcases hold c hc with rfl | hc
      · exact absurd hcid.symm (h b0 hb0)
      · exact absurd rfl (h c hc)
    · intro b hb h
      by_cases hbb : b = b0
      · rw [hbb] at h
        exact absurd hcid (h c0 hc0)
      · have : b ∈ pre ++ c0 :: post := by
          rw [hbooks] at hb
          rcases List.mem_append.mp hb with hb | hb
          · exact List.mem_append_left _ hb
          · rcases List.mem_cons.mp hb with hb | hb
            · exact absurd hb hbb
            · exact List.mem_append_right _ (List.mem_cons_of_mem _ hb)
        exact absurd rfl (h b this)
  · have hb0 : b0 ∈ L.books := by rw [hbooks]; simp
    have hold : ∀ x ∈ pre ++ c0 :: post, x = c0 ∨ x ∈ L.books := by
      intro x hx
      rw [hbooks]
      rcases List.mem_append.mp hx with hx | hx
      · exact Or.inr (List.mem_append_left _ hx)
      · rcases List.mem_cons.mp hx with hx | hx
        · exact Or.inl hx
        · exact Or.inr (List.mem_append_right _ (List.mem_cons_of_mem _ hx))
    have hc0 : c0 ∈ pre ++ c0 :: post := by simp
    rw [hbooks']
    refine ⟨?_, ?_, ?_⟩
    · intro b hb c hc hid hne
      rcases hold c hc with rfl | hc
      · have hbb : b = b0 := eq_of_same_id hU hb hb0 (hid.symm.trans hcid)
        right
        rw [hbb]
        exact ⟨hav, hcav, now, hop, hret⟩
      · exact absurd (congrArg Book.isAvailable (eq_of_same_id hU hc hb hid)) hne
    · intro c hc h
      rcases hold c hc with rfl | hc
      · exact absurd hcid.symm (h b0 hb0)
      · exact absurd rfl (h c hc)
    · intro b hb h
      by_cases hbb : b = b0
      · rw [hbb] at h
        exact absurd hcid (h c0 hc0)
      · have : b ∈ pre ++ c0 :: post := by
          rw [hbooks] at hb
          rcases List.mem_append.mp hb with hb | hb
          · exact List.mem_append_left _ hb
          · rcases List.mem_cons.mp hb with hb | hb
            · exact absurd hb hbb
            · exact List.mem_append_right _ (List.mem_cons_of_mem _ hb)
        exact absurd rfl (h b this)

/-- C15. In every state and for every call of `addBook`, `removeBook`,
`borrowBook` or `returnBook`, the call does one of five things: it leaves the
state as it is; or it is an `addBook` that appends a new, available record; or it
is a `removeBook` that returned true and deleted a record that was available; or
it is a `borrowBook` on id `b.bookID` that returned true and replaced the
available record `b` in place by a lent record with the same id; or it is a
`returnBook` on id `b.bookID` that returned true and replaced the lent record `b`
in place by an available record with the same id.  Every other record stays
where and as it is.  Where the ids are pairwise distinct before and after the
call, so that its id identifies a record: the record with a given id differs in
availability before and after only through such a `borrowBook` (available to
lent) or `returnBook` (lent to available) on its id; a record whose id is new
after the call is available and was added by `addBook`; a record whose id is gone
after the call was available and was deleted by a `removeBook` on its id that
returned true. -/
theorem availability_transitions (L : Library) (op : Op) :
    (L.step op = L ∨
      (∃ t a i g, op = .addBook t a i g ∧
        (L.step op).books = L.books ++ [Book.new L.nextBookID t a i g] ∧
        (Book.new L.nextBookID t a i g).isAvailable = true) ∨
      (∃ pre b post, op = .removeBook b.bookID ∧ (L.removeBook b.bookID).ret = true ∧
        L.books = pre ++ b :: post ∧ b.isAvailable = true ∧
        (L.step op).books = pre ++ post) ∨
      (∃ name now pre b c post, op = .borrowBook b.bookID name now ∧
        (L.borrowBook b.bookID name now).ret = true ∧ L.books = pre ++ b :: post ∧
        (L.step op).books = pre ++ c :: post ∧ c.bookID = b.bookID ∧
        b.isAvailable = true ∧ c.isAvailable = false) ∨
      (∃ now pre b c post, op = .returnBook b.bookID now ∧
        (L.returnBook b.bookID now).ret = true ∧ L.books = pre ++ b :: post ∧
        (L.step op).books = pre ++ c :: post ∧ c.bookID = b.bookID ∧
        b.isAvailable = false ∧ c.isAvailable = true)) ∧
    (L.UniqueIDs → (L.step op).UniqueIDs →
      (∀ b ∈ L.books, ∀ c ∈ (L.step op).books, c.bookID = b.bookID →
        c.isAvailable ≠ b.isAvailable →
          (b.isAvailable = true ∧ c.isAvailable = false ∧
            ∃ name now, op = .borrowBook b.bookID name now ∧
              (L.borrowBook b.bookID name now).ret = true) ∨
          (b.isAvailable = false ∧ c.isAvailable = true ∧
            ∃ now, op = .returnBook b.bookID now ∧
              (L.returnBook b.bookID now).ret = true)) ∧
      (∀ c ∈ (L.step op).books, (∀ b ∈ L.books, b.bookID ≠ c.bookID) →
        c.isAvailable = true ∧ ∃ t a i g, op = .addBook t a i g) ∧
      (∀ b ∈ L.books, (∀ c ∈ (L.step op).books, c.bookID ≠ b.bookID) →
        b.isAvailable = true ∧ op = .removeBook b.bookID ∧
          (L.removeBook b.bookID).ret = true)) :=
  ⟨step_shape L op, availability_by_id L op⟩

theorem availability_transitions_witness :
    lentLibrary.UniqueIDs ∧ (lentLibrary.step (.returnBook 1003 1800000000)).UniqueIDs ∧
    (∀ b ∈ lentLibrary.books,
      ∀ c ∈ (lentLibrary.step (.returnBook 1003 1800000000)).books, c.bookID = b.bookID →
      c.isAvailable ≠ b.isAvailable →
        (b.isAvailable = true ∧ c.isAvailable = false ∧
          ∃ name now, Op.returnBook 1003 1800000000 = .borrowBook b.bookID name now ∧
            (lentLibrary.borrowBook b.bookID name now).ret = true) ∨
        (b.isAvailable = false ∧ c.isAvailable = true ∧
          ∃ now, Op.returnBook 1003 1800000000 = .returnBook b.bookID now ∧
            (lentLibrary.returnBook b.bookID now).ret = true)) :=
  ⟨by decide, by decide,
    ((availability_transitions lentLibrary (.returnBook 1003 1800000000)).2
      (by decide) (by decide)).1⟩

/-! ## What `borrowBook` and `returnBook` leave alone -/

theorem getElem?_replace (pre post : List Book) (b c : Book) (i : Nat) (hi : i ≠ pre.length) :
    (pre ++ c :: post)[i]? = (pre ++ b :: post)[i]? := by
  induction pre generalizing i with
  | nil =>
    cases i with
    | zero => exact absurd rfl hi
    | succ j => simp
  | cons a pre ih =>
    cases i with
    | zero => simp
    | succ j =>
      have hj : j ≠ pre.length := fun h => hi (by simp [h])
      simpa using ih j hj

/-- Frame of an in-place replacement of the first record with a given id by a
record with the same constructor-set fields. -/
theorem frame_of_replace {L L1 : Library} {bookID : Int} {pre post : List Book} {b c : Book}
    (hbooks : L.books = pre ++ b :: post) (hid : b.bookID = bookID)
    (hpre : ∀ x ∈ pre, x.bookID ≠ bookID) (hc : c.fixedFields = b.fixedFields)
    (hl : L1 = ⟨pre ++ c :: post, L.nextBookID⟩) :
    L1.nextBookID = L.nextBookID ∧ L1.books.length = L.books.length ∧
    L1.books.map Book.fixedFields = L.books.map Book.fixedFields ∧
    ∀ i : Nat, (∀ x, L.findBookByID bookID ≠ some (i, x)) → L1.books[i]? = L.books[i]? := by
  subst hl
  refine ⟨rfl, by simp [hbooks], by simp [hbooks, hc], ?_⟩
  intro i hi
  have hfind : L.findBookByID bookID = some (pre.length, b) := by
    unfold findBookByID
    rw [hbooks]
    exact scan_append_of_not_mem hid hpre
  have hne : i ≠ pre.length := fun h => hi b (by rw [hfind, h])
  simp only [hbooks]
  exact getElem?_replace pre post b c i hne

theorem frame_of_same (L : Library) (bookID : Int) :
    L.nextBookID = L.nextBookID ∧ L.books.length = L.books.length ∧
    L.books.map Book.fixedFields = L.books.map Book.fixedFields ∧
    ∀ i : Nat, (∀ x, L.findBookByID bookID ≠ some (i, x)) → L.books[i]? = L.books[i]? :=
  ⟨rfl, rfl, rfl, fun _ _ => rfl⟩

/-- C16. For every state and arguments, `Library::borrowBook` and
`Library::returnBook`, whether they return true or false, leave unchanged: the
number and the order of the records, `nextBookID`, the id, title, author, isbn
and genre of every record, and every field of every record other than the first
record whose id is the target id (the record `findBookByID` points at). -/
theorem borrow_return_frame (L : Library) (bookID : Int) (name : String) (now : Int) :
    ((L.borrowBook bookID name now).lib.nextBookID = L.nextBookID ∧
      (L.borrowBook bookID name now).lib.books.length = L.books.length ∧
      (L.borrowBook bookID name now).lib.books.map Book.fixedFields =
        L.books.map Book.fixedFields ∧
      ∀ i : Nat, (∀ x, L.findBookByID bookID ≠ some (i, x)) →
        (L.borrowBook bookID name now).lib.books[i]? = L.books[i]?) ∧
    ((L.returnBook bookID now).lib.nextBookID = L.nextBookID ∧
      (L.returnBook bookID now).lib.books.length = L.books.length ∧
      (L.returnBook bookID now).lib.books.map Book.fixedFields =
        L.books.map Book.fixedFields ∧
      ∀ i : Nat, (∀ x, L.findBookByID bookID ≠ some (i, x)) →
        (L.returnBook bookID now).lib.books[i]? = L.books[i]?) := by
  constructor
  · rcases borrowBook_cases L bookID name now with ⟨_, hl, _⟩ | ⟨_, _, _, _, _, _, _, hl, _⟩ |
      ⟨pre, b, post, hbooks, hid, hpre, _, hl, _⟩
    · rw [hl]; exact frame_of_same L bookID
    · rw [hl]; exact frame_of_same L bookID
    · exact frame_of_replace (c := b.borrowBook name now Book.defaultDays) hbooks hid hpre rfl hl
  · rcases returnBook_cases L bookID now with ⟨_, hl, _⟩ | ⟨_, _, _, _, _, _, _, hl, _⟩ |
      ⟨pre, b, post, hbooks, hid, hpre, _, hl, _⟩
    · rw [hl]; exact frame_of_same L bookID
    · rw [hl]; exact frame_of_same L bookID
    · exact frame_of_replace (c := b.returnBook) hbooks hid hpre rfl hl

/-! ## Counts -/

theorem countAdds_wrappedOps : countAdds wrappedOps = 2147482647 := by
  unfold wrappedOps
  rw [countAdds_append, countAdds_churn]
  rfl

/-- C18 as stated fails for the run `wrappedOps`, whose 2147482647th `addBook`
call gives out the largest `int` as id and wraps the counter: the record's id
2147483647 is not below `nextBookID = -2147483648`, and the one record is more
than `nextBookID - 1001`. -/
theorem ids_bounds_fail_after_wrap :
    countAdds wrappedOps = 2147482647 ∧
    ids (Library.new.run wrappedOps).books = [2147483647] ∧
    (Library.new.run wrappedOps).nextBookID = -2147483648 ∧
    (∃ b ∈ (Library.new.run wrappedOps).books,
      ¬ b.bookID < (Library.new.run wrappedOps).nextBookID) ∧
    ¬ (Library.new.run wrappedOps).getTotalBooks ≤
      (Library.new.run wrappedOps).nextBookID - 1001 := by
  rw [run_wrappedOps]
  exact ⟨countAdds_wrappedOps, by decide, by decide, by decide, by decide⟩

/-- C18, amended. In every state reached from a fresh `Library` by a sequence of
`addBook`, `removeBook`, `borrowBook` and `returnBook` calls with at most
2147482646 `addBook` calls, the records are
stored in strictly increasing order of id, every id is at least 1001 and
strictly below `nextBookID`, and the number of records is at most
`nextBookID - 1001`. -/
theorem ids_increasing_and_bounded (ops : List Op) (h : countAdds ops ≤ 2147482646) :
    (ids (Library.new.run ops).books).Pairwise (· < ·) ∧
    (∀ b ∈ (Library.new.run ops).books,
      1001 ≤ b.bookID ∧ b.bookID < (Library.new.run ops).nextBookID) ∧
    (Library.new.run ops).getTotalBooks ≤ (Library.new.run ops).nextBookID - 1001 := by
  obtain ⟨_, h2, h3, h4⟩ := (inv_of_run_le h).1
  exact ⟨h2, h3, h4⟩

theorem ids_increasing_and_bounded_witness :
    countAdds lentOps ≤ 2147482646 ∧
    (ids (Library.new.run lentOps).books).Pairwise (· < ·) ∧
    (∀ b ∈ (Library.new.run lentOps).books,
      1001 ≤ b.bookID ∧ b.bookID < (Library.new.run lentOps).nextBookID) ∧
    (Library.new.run lentOps).getTotalBooks ≤ (Library.new.run lentOps).nextBookID - 1001 :=
  ⟨by decide, ids_increasing_and_bounded lentOps (by decide)⟩

/-! ## The loan window -/

/-- C19. After a `Library::borrowBook` call at clock value `now` that returns true
(the record with that id was available), the record with that id is due at
`now + 14 * 86400`; it is not overdue at any clock value up to and including that
instant (so at none between `now` and it), it is overdue at every later clock
value, and `getDaysUntilDue` at the instant `now` returns exactly 14. -/
theorem loan_window (L : Library) (bookID : Int) (name : String) (now : Int)
    (h : (L.borrowBook bookID name now).ret = true) :
    ∃ p b c, L.findBookByID bookID = some (p, b) ∧ b.isAvailable = true ∧
      (L.borrowBook bookID name now).lib.findBookByID bookID = some (p, c) ∧
      c.dueDate = now + 14 * 86400 ∧
      (∀ t : Int, t ≤ now + 14 * 86400 → c.isOverdue t = false) ∧
      (∀ t : Int, t > now + 14 * 86400 → c.isOverdue t = true) ∧
      c.getDaysUntilDue now = 14 := by
  rcases borrowBook_cases L bookID name now with ⟨_, _, hr⟩ | ⟨_, _, _, _, _, _, _, _, hr⟩ |
    ⟨pre, b, post, hbooks, hid, hpre, hb, hl, _⟩
  · rw [hr] at h; cases h
  · rw [hr] at h; cases h
  · have hdue : (b.borrowBook name now Book.defaultDays).dueDate = now + 14 * 86400 := by
      simp [Book.borrowBook, defaultDays_seconds, defaultLoanSeconds]
    have hav : (b.borrowBook name now Book.defaultDays).isAvailable = false := rfl
    refine ⟨pre.length, b, b.borrowBook name now Book.defaultDays, ?_, hb, ?_, hdue, ?_, ?_, ?_⟩
    · unfold findBookByID
      rw [hbooks]
      exact scan_append_of_not_mem hid hpre
    · rw [hl]
      exact @scan_append_of_not_mem pre (b.borrowBook name now Book.defaultDays) post bookID
        hid hpre
    · intro t ht
      simp only [Book.isOverdue, hav, hdue, Bool.false_eq_true, if_false, decide_eq_false_iff_not]
      omega
    · intro t ht
      simp only [Book.isOverdue, hav, hdue, Bool.false_eq_true, if_false, decide_eq_true_eq]
      omega
    · have e : now + 14 * 86400 - now = 1209600 := by omega
      simp only [Book.getDaysUntilDue, hav, hdue, Bool.false_eq_true, if_false, e]
      decide

theorem loan_window_witness :
    (seedLibrary.borrowBook 1003 "Alice" 1700000000).ret = true ∧
    ∃ p b c, seedLibrary.findBookByID 1003 = some (p, b) ∧ b.isAvailable = true ∧
      (seedLibrary.borrowBook 1003 "Alice" 1700000000).lib.findBookByID 1003 = some (p, c) ∧
      c.dueDate = 1700000000 + 14 * 86400 ∧
      (∀ t : Int, t ≤ 1700000000 + 14 * 86400 → c.isOverdue t = false) ∧
      (∀ t : Int, t > 1700000000 + 14 * 86400 → c.isOverdue t = true) ∧
      c.getDaysUntilDue 1700000000 = 14 :=
  ⟨by decide, loan_window seedLibrary 1003 "Alice" 1700000000 (by decide)⟩

end Library

end LibrarySystem
